import Mathlib

/- Verification of the zksync-python transaction core
   (zksync_sdk/types/transactions.py): canonical binary encodings,
   human-readable signing messages, token model and registry, and
   transport dictionaries.  Byte strings are modelled as `List Nat`
   (each entry a byte value), text as `List Char`, and fallible
   Python code (raising serializers, attribute errors, index errors)
   as `Option`-returning functions. -/

namespace ZkSync

/-- Shorthand turning a Lean string literal into the `List Char`
representation used for all text in this development. -/
def lchars (s : String) : List Char := s.toList

/-- The decimal digit character for a value `d < 10` (values `≥ 9` all map
to `'9'`; the functions below only apply it to single digits). -/
def digitChar : Nat → Char
  | 0 => '0' | 1 => '1' | 2 => '2' | 3 => '3' | 4 => '4'
  | 5 => '5' | 6 => '6' | 7 => '7' | 8 => '8' | _ => '9'

/-- Fuel-bounded big-endian decimal digit rendering of a natural number;
with fuel `n + 1` it renders `n` completely (the digit count of `n` is at
most `n + 1`). -/
def natDigitsAux : Nat → Nat → List Char
  | 0, _ => []
  | fuel + 1, n =>
    if n < 10 then [digitChar n]
    else natDigitsAux fuel (n / 10) ++ [digitChar (n % 10)]

/-- Decimal rendering of a natural number, modelling Python's `str`/`f`-string
formatting of a non-negative `int`. -/
def natDigits (n : Nat) : List Char := natDigitsAux (n + 1) n

/-- The ten decimal digit characters. -/
def digitSet : List Char :=
  ['0', '1', '2', '3', '4', '5', '6', '7', '8', '9']

/-- Lowercasing a character string, modelling Python's `str.lower` on the
ASCII strings this library renders. -/
def strLower (s : List Char) : List Char := s.map Char.toLower

/-- Remove every leading occurrence of the textual `sync:` tag, modelling
`str.replace('sync:', '')` as used on public-key hashes. -/
def removeSyncTag : List Char → List Char
  | 's' :: 'y' :: 'n' :: 'c' :: ':' :: rest => removeSyncTag rest
  | c :: rest => c :: removeSyncTag rest
  | [] => []

/-- Strip the fractional-part trailing zeros, modelling Python's
`str.rstrip("0")`. -/
def rstrip0 (l : List Char) : List Char :=
  (l.reverse.dropWhile (fun c => c == '0')).reverse

/-- Big-endian fixed-width byte rendering of a natural number (the value of
`val.to_bytes(length, byteorder='big')` when it fits). -/
def beBytes (len val : Nat) : List Nat :=
  (List.range len).map (fun i => val / 256 ^ (len - 1 - i) % 256)

/-- Modelled from the spec: `serializers.int_to_bytes` is not under `src/`;
per the spec's serializer table, a raw non-negative integer is written
big-endian at a caller-specified byte length and the encoding fails if the
value does not fit. -/
def int_to_bytes (val len : Nat) : Option (List Nat) :=
  if val < 256 ^ len then some (beBytes len val) else none

/-- Value of a single hexadecimal digit character, `none` on other
characters. -/
def hexDigit (c : Char) : Option Nat :=
  if '0' ≤ c ∧ c ≤ '9' then some (c.toNat - 48)
  else if 'a' ≤ c ∧ c ≤ 'f' then some (c.toNat - 87)
  else if 'A' ≤ c ∧ c ≤ 'F' then some (c.toNat - 55)
  else none

/-- Hex-decode a character string two digits per byte, modelling
`bytes.fromhex`; fails on odd length or non-hex characters. -/
def hexDecode : List Char → Option (List Nat)
  | [] => some []
  | c1 :: c2 :: rest => do
    let d1 ← hexDigit c1
    let d2 ← hexDigit c2
    let tl ← hexDecode rest
    some ((16 * d1 + d2) :: tl)
  | [_] => none

/-- Modelled from the spec: the address serializer's tag stripping lives in
`serializers.py`, not under `src/`; the spec says an address is a 20-byte hex
string optionally carrying a leading `0x` marker or a leading `sync:` tag. -/
def stripAddrTag : List Char → List Char
  | '0' :: 'x' :: rest => rest
  | 's' :: 'y' :: 'n' :: 'c' :: ':' :: rest => rest
  | s => s

/-- Modelled from the spec: `serializers.serialize_address` is not under
`src/`; per the spec it strips the optional tag, hex-decodes, and fails
unless the result is exactly 20 bytes. -/
def serialize_address (address : List Char) : Option (List Nat) := do
  let bs ← hexDecode (stripAddrTag address)
  if bs.length = 20 then some bs else none

/-- Modelled from the spec: `serializers.serialize_account_id` is not under
`src/`; per the spec an account id is 4 bytes big-endian, failing beyond the
4-byte range. -/
def serialize_account_id (account_id : Nat) : Option (List Nat) :=
  int_to_bytes account_id 4

/-- Modelled from the spec: `serializers.serialize_token_id` is not under
`src/`; per the spec a token id is 4 bytes big-endian. -/
def serialize_token_id (token_id : Nat) : Option (List Nat) :=
  int_to_bytes token_id 4

/-- Modelled from the spec: `serializers.serialize_nonce` is not under
`src/`; per the spec a nonce is 4 bytes big-endian. -/
def serialize_nonce (nonce : Nat) : Option (List Nat) :=
  int_to_bytes nonce 4

/-- Modelled from the spec: `serializers.serialize_timestamp` is not under
`src/`; per the spec a timestamp is 8 bytes big-endian. -/
def serialize_timestamp (timestamp : Nat) : Option (List Nat) :=
  int_to_bytes timestamp 8

/-- Modelled from the spec: `serializers.serialize_ratio_part` is not under
`src/`; per the spec a ratio numerator or denominator is 16 bytes big-endian,
failing if it does not fit. -/
def serialize_ratio_part (part : Nat) : Option (List Nat) :=
  int_to_bytes part 16

/-- Modelled from the spec: `serializers.serialize_content_hash` is not under
`src/`; per the spec a content hash is a 32-byte hex string decoded to exactly
32 bytes, failing otherwise. -/
def serialize_content_hash (h : List Char) : Option (List Nat) := do
  let bs ← hexDecode (stripAddrTag h)
  if bs.length = 32 then some bs else none

/-- Modelled from the spec: `serializers.packed_fee_checked` is not under
`src/`; per the spec a fee packs into one byte as `mantissa * 10 ^ exponent`
with a top-nibble exponent and bottom-nibble mantissa, choosing the largest
exponent that reproduces the value exactly and failing when no nibble pair
does. -/
def packed_fee_checked (fee : Nat) : Option (List Nat) :=
  match (List.range 16).reverse.find?
      (fun e => decide (fee % 10 ^ e = 0 ∧ fee / 10 ^ e ≤ 15)) with
  | some e => some [16 * e + fee / 10 ^ e]
  | none => none

/-- Modelled from the spec: `serializers.packed_amount_checked` is not under
`src/`; per the spec an amount packs into five bytes as
`mantissa * 10 ^ exponent` with a 35-bit mantissa and 5-bit exponent (the
exact bit split is noted as protocol-defined; the exponent occupies the top
bits here), choosing the largest exponent that reproduces the value exactly
and failing when none does. -/
def packed_amount_checked (amount : Nat) : Option (List Nat) :=
  match (List.range 32).reverse.find?
      (fun e => decide (amount % 10 ^ e = 0 ∧ amount / 10 ^ e < 2 ^ 35)) with
  | some e => some (beBytes 5 (e * 2 ^ 35 + amount / 10 ^ e))
  | none => none

/-- Concatenation of fallible byte pieces: `b"".join([...])` over
subexpressions any of which may raise. -/
def optConcat : List (Option (List Nat)) → Option (List Nat)
  | [] => some []
  | o :: rest => o.bind (fun b => (optConcat rest).map (fun r => b ++ r))

/-- The fixed second byte of every top-level payload
(`TRANSACTION_VERSION = 0x01`). -/
def TRANSACTION_VERSION : Nat := 0x01

/-- Modelled from the spec: `types/signatures.py` is not under `src/`; the
spec treats a transaction signature as an opaque object carrying its own
transport serialization. -/
structure TxSignature where
  pub_key : List Char
  sig : List Char
deriving DecidableEq

/-- Modelled from the spec: `types/signatures.py` is not under `src/`; a
wallet-style (layer-1) signature, opaque with its own transport
serialization. -/
structure TxEthSignature where
  sig_type : List Char
  sig : List Char
deriving DecidableEq

/-- JSON-ready values appearing in the transport dictionaries. -/
inductive JVal where
  | null
  | num (n : Nat)
  | str (s : List Char)
  | arr (l : List JVal)
  | obj (l : List (List Char × JVal))

/-- Look a key up in an object value (the transport dictionaries are
objects). -/
def JVal.lookup (v : JVal) (k : List Char) : Option JVal :=
  match v with
  | .obj l => l.lookup k
  | _ => none

/-- Modelled from the spec: the signature object's `dict()` rendering, opaque
apart from being a mapping of its own fields. -/
def TxSignature.dict (s : TxSignature) : JVal :=
  JVal.obj [(lchars "pubKey", JVal.str s.pub_key),
            (lchars "signature", JVal.str s.sig)]

/-- Modelled from the spec: the wallet-style signature's `dict()` rendering,
opaque apart from being a mapping of its own fields. -/
def TxEthSignature.dict (s : TxEthSignature) : JVal :=
  JVal.obj [(lchars "type", JVal.str s.sig_type),
            (lchars "signature", JVal.str s.sig)]

/-- A fungible asset's on-chain identity and decimal precision
(`class Token`). -/
structure Token where
  address : List Char
  id : Nat
  symbol : List Char
  decimals : Nat
deriving DecidableEq

/-- The distinguished default (zero) token address. -/
def DEFAULT_TOKEN_ADDRESS : List Char :=
  lchars "0x0000000000000000000000000000000000000000"

/-- `Token.eth`: the distinguished ETH token (id 0, zero address,
18 decimals). -/
def Token.eth : Token :=
  { id := 0, address := DEFAULT_TOKEN_ADDRESS, symbol := lchars "ETH",
    decimals := 18 }

/-- `Token.is_eth`. -/
def Token.is_eth (t : Token) : Bool :=
  t.symbol == lchars "ETH" && t.address == DEFAULT_TOKEN_ADDRESS

/-- A Python `Decimal` value: an integer coefficient times a power of ten,
exactly as `decimal.Decimal` stores it (sign folded into the
coefficient). -/
structure PyDecimal where
  coeff : ℤ
  exp : ℤ
deriving DecidableEq

/-- The numeric value of a `Decimal`; Python's `==` on `Decimal` compares
these values. -/
def PyDecimal.val (d : PyDecimal) : ℚ :=
  (d.coeff : ℚ) * (10 : ℚ) ^ d.exp

/-- The default `decimal` context precision: results of `Decimal`
arithmetic (including `scaleb`) are rounded to this many significant
digits. -/
def DECIMAL_CONTEXT_PREC : Nat := 28

/-- The number of decimal digits of `n` (the length of `str(n)` for a
non-negative `int`). -/
def decDigits (n : Nat) : Nat := (natDigits n).length

/-- Round `n / 10 ^ m` to the nearest integer with ties to even, the
magnitude part of the default `ROUND_HALF_EVEN` rounding mode (callers pass
`m ≥ 1`). -/
def roundHalfEvenNat (n m : Nat) : Nat :=
  let q := n / 10 ^ m
  let r := n % 10 ^ m
  let h := 5 * 10 ^ (m - 1)
  if h < r then q + 1
  else if r < h then q
  else if q % 2 = 0 then q else q + 1

/-- The shortening step of context rounding once the digit excess `m` is
known: round the coefficient's magnitude at `m` places half-even, with one
more exponent shift when rounding up lengthens the coefficient. -/
def ctxRoundAux (d : PyDecimal) (m : Nat) : PyDecimal :=
  if decDigits (roundHalfEvenNat d.coeff.natAbs m) ≤ DECIMAL_CONTEXT_PREC
  then { coeff := Int.sign d.coeff * (roundHalfEvenNat d.coeff.natAbs m),
         exp := d.exp + m }
  else { coeff :=
           Int.sign d.coeff * (roundHalfEvenNat d.coeff.natAbs m / 10),
         exp := d.exp + m + 1 }

/-- Round a `Decimal` to the default context's 28 significant digits with
ties to even, as `Context._fix` does to every arithmetic result: a
coefficient of more than 28 digits is shortened, carrying the dropped
places into the exponent. -/
def ctxRound (d : PyDecimal) : PyDecimal :=
  if decDigits d.coeff.natAbs ≤ DECIMAL_CONTEXT_PREC then d
  else ctxRoundAux d (decDigits d.coeff.natAbs - DECIMAL_CONTEXT_PREC)

/-- `Decimal.scaleb`: shift the exponent, then round the result to the
context precision like every `Decimal` arithmetic operation. -/
def PyDecimal.scaleb (d : PyDecimal) (k : ℤ) : PyDecimal :=
  ctxRound { coeff := d.coeff, exp := d.exp + k }

/-- Python's `int(...)` conversion of a `Decimal`: truncation toward
zero. -/
def pyIntOfDecimal (d : PyDecimal) : ℤ :=
  if 0 ≤ d.exp then d.coeff * 10 ^ d.exp.toNat
  else Int.sign d.coeff * (d.coeff.natAbs / 10 ^ (-d.exp).toNat)

/-- `Token.decimal_amount`: `Decimal(amount).scaleb(-decimals)`, including
the context rounding `scaleb` performs. -/
def Token.decimal_amount (t : Token) (amount : ℤ) : PyDecimal :=
  PyDecimal.scaleb { coeff := amount, exp := 0 } (-(t.decimals : ℤ))

/-- `Token.from_decimal`: `int(amount.scaleb(decimals))`, including the
context rounding `scaleb` performs. -/
def Token.from_decimal (t : Token) (d : PyDecimal) : ℤ :=
  pyIntOfDecimal (d.scaleb (t.decimals : ℤ))

/-- Zero-padded fixed-width decimal digit rendering, for the fractional part
of an `f`-formatted `Decimal`. -/
def padDigits (width n : Nat) : List Char :=
  List.replicate (width - (natDigits n).length) '0' ++ natDigits n

/-- The strip-and-fix-up steps of `decimal_str_amount` applied to the
`f`-formatted digit string: strip trailing zeros, index the last character
(an `IndexError` on an empty string is the `none` case), re-append a `'0'`
after a bare trailing point, and append `.0` when no point remains. -/
def strip_fmt (d_str : List Char) : Option (List Char) :=
  match (rstrip0 d_str).getLast? with
  | none => none
  | some c =>
    if c = '.' then some (rstrip0 d_str ++ ['0'])
    else if '.' ∈ rstrip0 d_str then some (rstrip0 d_str)
    else some (rstrip0 d_str ++ ['.', '0'])

/-- `Token.decimal_str_amount`: render `Decimal(amount).scaleb(-decimals)`
with exactly `decimals` fractional digits (here the digit string of the
exact value; for amounts beyond the context's 28 significant digits Python
formats the context-rounded value, whose digit content differs but whose
digits-and-point shape is the same), then strip trailing zeros, re-appending
a zero after a bare trailing point and appending `.0` when no point remains.
Python indexes `d_str[-1]` after the strip, which raises `IndexError` on an
empty string; that failure is the `none` case. -/
def Token.decimal_str_amount (t : Token) (amount : Nat) : Option (List Char) :=
  strip_fmt
    (if t.decimals = 0 then natDigits amount
     else natDigits (amount / 10 ^ t.decimals) ++
       '.' :: padDigits t.decimals (amount % 10 ^ t.decimals))

/-- The registry's flat token list (`class Tokens`). -/
structure Tokens where
  tokens : List Token
deriving DecidableEq

/-- `Tokens.find_by_address`: first token of the comprehension filtering on
the address, absent when the filter is empty. -/
def Tokens.find_by_address (ts : Tokens) (address : List Char) : Option Token :=
  (ts.tokens.filter (fun t => t.address == address)).head?

/-- `Tokens.find_by_id`: first token of the comprehension filtering on the
id, absent when the filter is empty. -/
def Tokens.find_by_id (ts : Tokens) (token_id : Nat) : Option Token :=
  (ts.tokens.filter (fun t => t.id == token_id)).head?

/-- `Tokens.find_by_symbol`: first token of the comprehension filtering on
the symbol, absent when the filter is empty. -/
def Tokens.find_by_symbol (ts : Tokens) (symbol : List Char) : Option Token :=
  (ts.tokens.filter (fun t => t.symbol == symbol)).head?

/-- A `TokenLike` lookup key: Python's `Union[str, int]`, plus a case for a
value of neither type (dynamically typed callers can pass anything; the
source's `isinstance` dispatch then leaves the result `None`). -/
inductive TokenLike where
  | int (i : Nat)
  | str (s : List Char)
  | other
deriving DecidableEq

/-- `Tokens.find`: dispatch on the key's runtime type; integers look up by
id, strings by address and then by symbol, anything else yields the initial
`None`. -/
def Tokens.find (ts : Tokens) (token : TokenLike) : Option Token :=
  match token with
  | .int i => ts.find_by_id i
  | .str s =>
    match ts.find_by_address s with
    | some r => some r
    | none => ts.find_by_symbol s
  | .other => none

/-- ChangePubKey's optional on-chain authorization data: either an
ECDSA-style authorization (32-byte batch hash) or a CREATE2-style one
(creator address, salt argument, code hash). -/
inductive EthAuthData where
  | ecdsa (batch_hash : List Nat)
  | create2 (creator_address : List Char) (salt_arg : List Nat)
      (code_hash : List Nat)
deriving DecidableEq

/-- Transport rendering of the authorization field of `ChangePubKey.dict`
(the Python source stores the dataclass object itself under `"ethAuthData"`;
it is rendered here by its fields, `null` when absent). -/
def EthAuthData.render : Option EthAuthData → JVal
  | none => JVal.null
  | some (.ecdsa bh) =>
    JVal.obj [(lchars "type", JVal.str (lchars "ECDSA")),
              (lchars "batchHash", JVal.arr (bh.map JVal.num))]
  | some (.create2 ca sa ch) =>
    JVal.obj [(lchars "type", JVal.str (lchars "CREATE2")),
              (lchars "creatorAddress", JVal.str ca),
              (lchars "saltArg", JVal.arr (sa.map JVal.num)),
              (lchars "codeHash", JVal.arr (ch.map JVal.num))]

/-- `class ChangePubKey`. -/
structure ChangePubKey where
  account_id : Nat
  account : List Char
  new_pk_hash : List Char
  token : Token
  fee : Nat
  nonce : Nat
  valid_from : Nat
  valid_until : Nat
  eth_auth_data : Option EthAuthData := none
  eth_signature : Option TxEthSignature := none
  signature : Option TxSignature := none

/-- `ChangePubKey.tx_type` (a classmethod returning 7). -/
def ChangePubKey.tx_type (_ : ChangePubKey) : Nat := 7

/-- `ChangePubKey.human_readable_message`: the signing-key line, plus a fee
line when the fee is truthy (the fee is printed as a raw integer here, not
through the decimal renderer). -/
def ChangePubKey.human_readable_message (c : ChangePubKey) :
    Option (List Char) :=
  let message := lchars "Set signing key: " ++
    strLower (removeSyncTag c.new_pk_hash)
  if c.fee ≠ 0 then
    some (message ++ lchars "\nFee: " ++ natDigits c.fee ++ [' '] ++
      c.token.symbol)
  else some message

/-- `ChangePubKey.encoded_message`. -/
def ChangePubKey.encoded_message (c : ChangePubKey) : Option (List Nat) :=
  optConcat [
    int_to_bytes (0xff - c.tx_type) 1,
    int_to_bytes TRANSACTION_VERSION 1,
    serialize_account_id c.account_id,
    serialize_address c.account,
    serialize_address c.new_pk_hash,
    serialize_token_id c.token.id,
    packed_fee_checked c.fee,
    serialize_nonce c.nonce,
    serialize_timestamp c.valid_from,
    serialize_timestamp c.valid_until]

/-- `ChangePubKey.dict`: fails (attribute error) when the internal signature
is absent, since it calls `self.signature.dict()` unconditionally. -/
def ChangePubKey.dict (c : ChangePubKey) : Option JVal :=
  match c.signature with
  | none => none
  | some sg => some (JVal.obj [
      (lchars "type", JVal.str (lchars "ChangePubKey")),
      (lchars "accountId", JVal.num c.account_id),
      (lchars "account", JVal.str c.account),
      (lchars "newPkHash", JVal.str c.new_pk_hash),
      (lchars "fee_token", JVal.num c.token.id),
      (lchars "fee", JVal.num c.fee),
      (lchars "nonce", JVal.num c.nonce),
      (lchars "ethAuthData", EthAuthData.render c.eth_auth_data),
      (lchars "signature", sg.dict),
      (lchars "validFrom", JVal.num c.valid_from),
      (lchars "validUntil", JVal.num c.valid_until)])

/-- `class Transfer`. -/
structure Transfer where
  account_id : Nat
  from_address : List Char
  to_address : List Char
  token : Token
  amount : Nat
  fee : Nat
  nonce : Nat
  valid_from : Nat
  valid_until : Nat
  signature : Option TxSignature := none

/-- `Transfer.tx_type`. -/
def Transfer.tx_type (_ : Transfer) : Nat := 5

/-- `Transfer.human_readable_message`: optional amount line, optional fee
line, closing nonce line. -/
def Transfer.human_readable_message (t : Transfer) : Option (List Char) :=
  (if t.amount ≠ 0 then
      (t.token.decimal_str_amount t.amount).map (fun ds =>
        lchars "Transfer " ++ ds ++ [' '] ++ t.token.symbol ++
        lchars " to: " ++ strLower t.to_address ++ ['\n'])
    else some []).bind (fun amountPart =>
  (if t.fee ≠ 0 then
      (t.token.decimal_str_amount t.fee).map (fun ds =>
        lchars "Fee: " ++ ds ++ [' '] ++ t.token.symbol ++ ['\n'])
    else some []).bind (fun feePart =>
  some (amountPart ++ feePart ++ lchars "Nonce: " ++ natDigits t.nonce)))

/-- `Transfer.encoded_message`. -/
def Transfer.encoded_message (t : Transfer) : Option (List Nat) :=
  optConcat [
    int_to_bytes (0xff - t.tx_type) 1,
    int_to_bytes TRANSACTION_VERSION 1,
    serialize_account_id t.account_id,
    serialize_address t.from_address,
    serialize_address t.to_address,
    serialize_token_id t.token.id,
    packed_amount_checked t.amount,
    packed_fee_checked t.fee,
    serialize_nonce t.nonce,
    serialize_timestamp t.valid_from,
    serialize_timestamp t.valid_until]

/-- `Transfer.dict`: fails (attribute error) when the internal signature is
absent. -/
def Transfer.dict (t : Transfer) : Option JVal :=
  match t.signature with
  | none => none
  | some sg => some (JVal.obj [
      (lchars "type", JVal.str (lchars "Transfer")),
      (lchars "accountId", JVal.num t.account_id),
      (lchars "from", JVal.str t.from_address),
      (lchars "to", JVal.str t.to_address),
      (lchars "token", JVal.num t.token.id),
      (lchars "fee", JVal.num t.fee),
      (lchars "nonce", JVal.num t.nonce),
      (lchars "signature", sg.dict),
      (lchars "amount", JVal.num t.amount),
      (lchars "validFrom", JVal.num t.valid_from),
      (lchars "validUntil", JVal.num t.valid_until)])

/-- `class Withdraw`. -/
structure Withdraw where
  account_id : Nat
  from_address : List Char
  to_address : List Char
  amount : Nat
  fee : Nat
  nonce : Nat
  valid_from : Nat
  valid_until : Nat
  token : Token
  signature : Option TxSignature := none

/-- `Withdraw.tx_type`. -/
def Withdraw.tx_type (_ : Withdraw) : Nat := 3

/-- `Withdraw.human_readable_message`: optional amount line, optional fee
line, closing nonce line. -/
def Withdraw.human_readable_message (w : Withdraw) : Option (List Char) :=
  (if w.amount ≠ 0 then
      (w.token.decimal_str_amount w.amount).map (fun ds =>
        lchars "Withdraw " ++ ds ++ [' '] ++ w.token.symbol ++
        lchars " to: " ++ strLower w.to_address ++ ['\n'])
    else some []).bind (fun amountPart =>
  (if w.fee ≠ 0 then
      (w.token.decimal_str_amount w.fee).map (fun ds =>
        lchars "Fee: " ++ ds ++ [' '] ++ w.token.symbol ++ ['\n'])
    else some []).bind (fun feePart =>
  some (amountPart ++ feePart ++ lchars "Nonce: " ++ natDigits w.nonce)))

/-- `Withdraw.encoded_message`: the amount is a raw 16-byte big-endian
integer (`int_to_bytes(self.amount, length=16)`), not the packed form. -/
def Withdraw.encoded_message (w : Withdraw) : Option (List Nat) :=
  optConcat [
    int_to_bytes (0xff - w.tx_type) 1,
    int_to_bytes TRANSACTION_VERSION 1,
    serialize_account_id w.account_id,
    serialize_address w.from_address,
    serialize_address w.to_address,
    serialize_token_id w.token.id,
    int_to_bytes w.amount 16,
    packed_fee_checked w.fee,
    serialize_nonce w.nonce,
    serialize_timestamp w.valid_from,
    serialize_timestamp w.valid_until]

/-- `Withdraw.dict`: fails (attribute error) when the internal signature is
absent. -/
def Withdraw.dict (w : Withdraw) : Option JVal :=
  match w.signature with
  | none => none
  | some sg => some (JVal.obj [
      (lchars "type", JVal.str (lchars "Withdraw")),
      (lchars "accountId", JVal.num w.account_id),
      (lchars "from", JVal.str w.from_address),
      (lchars "to", JVal.str w.to_address),
      (lchars "token", JVal.num w.token.id),
      (lchars "fee", JVal.num w.fee),
      (lchars "nonce", JVal.num w.nonce),
      (lchars "signature", sg.dict),
      (lchars "amount", JVal.num w.amount),
      (lchars "validFrom", JVal.num w.valid_from),
      (lchars "validUntil", JVal.num w.valid_until)])

/-- `class ForcedExit`. -/
structure ForcedExit where
  initiator_account_id : Nat
  target : List Char
  token : Token
  fee : Nat
  nonce : Nat
  valid_from : Nat
  valid_until : Nat
  signature : Option TxSignature := none

/-- `ForcedExit.tx_type`. -/
def ForcedExit.tx_type (_ : ForcedExit) : Nat := 8

/-- `ForcedExit.encoded_message`. -/
def ForcedExit.encoded_message (f : ForcedExit) : Option (List Nat) :=
  optConcat [
    int_to_bytes (0xff - f.tx_type) 1,
    int_to_bytes TRANSACTION_VERSION 1,
    serialize_account_id f.initiator_account_id,
    serialize_address f.target,
    serialize_token_id f.token.id,
    packed_fee_checked f.fee,
    serialize_nonce f.nonce,
    serialize_timestamp f.valid_from,
    serialize_timestamp f.valid_until]

/-- `ForcedExit.human_readable_message`: one fixed template that always
renders the fee through the decimal renderer (failing when that fails). -/
def ForcedExit.human_readable_message (f : ForcedExit) : Option (List Char) :=
  (f.token.decimal_str_amount f.fee).map (fun ds =>
    lchars "ForcedExit " ++ f.token.symbol ++ lchars " to: " ++
    strLower f.target ++ lchars "\nFee: " ++ ds ++ [' '] ++
    f.token.symbol ++ lchars "\nNonce: " ++ natDigits f.nonce)

/-- `ForcedExit.dict`: fails (attribute error) when the internal signature
is absent. -/
def ForcedExit.dict (f : ForcedExit) : Option JVal :=
  match f.signature with
  | none => none
  | some sg => some (JVal.obj [
      (lchars "type", JVal.str (lchars "ForcedExit")),
      (lchars "initiatorAccountId", JVal.num f.initiator_account_id),
      (lchars "target", JVal.str f.target),
      (lchars "token", JVal.num f.token.id),
      (lchars "fee", JVal.num f.fee),
      (lchars "nonce", JVal.num f.nonce),
      (lchars "signature", sg.dict),
      (lchars "validFrom", JVal.num f.valid_from),
      (lchars "validUntil", JVal.num f.valid_until)])

/-- `class Order`: one leg of a Swap (the `Fraction` exchange rate is carried
as its numerator/denominator pair). -/
structure Order where
  account_id : Nat
  recipient : List Char
  nonce : Nat
  token_sell : Token
  token_buy : Token
  amount : Nat
  ratioNum : Nat
  ratioDen : Nat
  valid_from : Nat
  valid_until : Nat
  signature : Option TxSignature := none
  ethSignature : Option TxEthSignature := none

/-- `Order.msg_type`: the ASCII value of `'o'` (`b'o'[0] = 111`). -/
def Order.msg_type (_ : Order) : Nat := Char.toNat 'o'

/-- `Order.encoded_message`. -/
def Order.encoded_message (o : Order) : Option (List Nat) :=
  optConcat [
    int_to_bytes (o.msg_type) 1,
    int_to_bytes TRANSACTION_VERSION 1,
    serialize_account_id o.account_id,
    serialize_address o.recipient,
    serialize_nonce o.nonce,
    serialize_token_id o.token_sell.id,
    serialize_token_id o.token_buy.id,
    serialize_ratio_part o.ratioNum,
    serialize_ratio_part o.ratioDen,
    packed_amount_checked o.amount,
    serialize_timestamp o.valid_from,
    serialize_timestamp o.valid_until]

/-- `Order.human_readable_message`: header (limit-order form when the amount
is zero), ratio line, lower-cased address line, nonce line, joined with
newlines. -/
def Order.human_readable_message (o : Order) : Option (List Char) :=
  let tail := lchars "\nRatio: " ++ natDigits o.ratioNum ++ [':'] ++
    natDigits o.ratioDen ++ lchars "\nAddress: " ++ strLower o.recipient ++
    lchars "\nNonce: " ++ natDigits o.nonce
  if o.amount = 0 then
    some (lchars "Limit order for " ++ o.token_sell.symbol ++
      lchars " -> " ++ o.token_buy.symbol ++ tail)
  else
    (o.token_sell.decimal_str_amount o.amount).map (fun ds =>
      lchars "Order for " ++ ds ++ [' '] ++ o.token_sell.symbol ++
      lchars " -> " ++ o.token_buy.symbol ++ tail)

/-- `Order.dict`: total; both optional signatures render as `null` when
absent (`... if self.signature else None`). -/
def Order.dict (o : Order) : JVal :=
  JVal.obj [
    (lchars "accountId", JVal.num o.account_id),
    (lchars "recipient", JVal.str o.recipient),
    (lchars "nonce", JVal.num o.nonce),
    (lchars "tokenSell", JVal.num o.token_sell.id),
    (lchars "tokenBuy", JVal.num o.token_buy.id),
    (lchars "amount", JVal.num o.amount),
    (lchars "ratio", JVal.arr [JVal.num o.ratioNum, JVal.num o.ratioDen]),
    (lchars "validFrom", JVal.num o.valid_from),
    (lchars "validUntil", JVal.num o.valid_until),
    (lchars "signature",
      match o.signature with | some s => s.dict | none => JVal.null),
    (lchars "ethSignature",
      match o.ethSignature with | some s => s.dict | none => JVal.null)]

/-- `class Swap`. -/
structure Swap where
  submitter_id : Nat
  submitter_address : List Char
  amounts : Nat × Nat
  orders : Order × Order
  fee_token : Token
  fee : Nat
  nonce : Nat
  signature : Option TxSignature := none

/-- `Swap.tx_type`. -/
def Swap.tx_type (_ : Swap) : Nat := 11

/-- `Swap.human_readable_message`: optional fee line, closing nonce line. -/
def Swap.human_readable_message (s : Swap) : Option (List Char) :=
  if s.fee ≠ 0 then
    (s.fee_token.decimal_str_amount s.fee).map (fun ds =>
      lchars "Swap fee: " ++ ds ++ [' '] ++ s.fee_token.symbol ++ ['\n'] ++
      lchars "Nonce: " ++ natDigits s.nonce)
  else some (lchars "Nonce: " ++ natDigits s.nonce)

/-- The `order_bytes` value of `Swap.encoded_message`: the two legs' own
encoded messages concatenated in leg order. -/
def Swap.order_bytes (s : Swap) : Option (List Nat) :=
  optConcat [s.orders.1.encoded_message, s.orders.2.encoded_message]

/-- `Swap.encoded_message`: the opaque `ZkSyncLibrary().hash_orders`
capability is passed in as the function argument `hash_orders` and applied
to `order_bytes`. -/
def Swap.encoded_message (s : Swap) (hash_orders : List Nat → List Nat) :
    Option (List Nat) :=
  match s.order_bytes with
  | none => none
  | some ob => optConcat [
      int_to_bytes (0xff - s.tx_type) 1,
      int_to_bytes TRANSACTION_VERSION 1,
      serialize_account_id s.submitter_id,
      serialize_address s.submitter_address,
      serialize_nonce s.nonce,
      some (hash_orders ob),
      serialize_token_id s.fee_token.id,
      packed_fee_checked s.fee,
      packed_amount_checked s.amounts.1,
      packed_amount_checked s.amounts.2]

/-- `Swap.dict`: total; the optional signature renders as `null` when
absent, and the nested orders render through their own `dict`. -/
def Swap.dict (s : Swap) : JVal :=
  JVal.obj [
    (lchars "type", JVal.str (lchars "Swap")),
    (lchars "submitterId", JVal.num s.submitter_id),
    (lchars "submitterAddress", JVal.str s.submitter_address),
    (lchars "feeToken", JVal.num s.fee_token.id),
    (lchars "fee", JVal.num s.fee),
    (lchars "nonce", JVal.num s.nonce),
    (lchars "signature",
      match s.signature with | some g => g.dict | none => JVal.null),
    (lchars "amounts", JVal.arr [JVal.num s.amounts.1, JVal.num s.amounts.2]),
    (lchars "orders", JVal.arr [s.orders.1.dict, s.orders.2.dict])]

/-- `class MintNFT`. -/
structure MintNFT where
  creator_id : Nat
  creator_address : List Char
  content_hash : List Char
  recipient : List Char
  fee : Nat
  fee_token : Token
  nonce : Nat
  signature : Option TxSignature := none

/-- `MintNFT.tx_type`. -/
def MintNFT.tx_type (_ : MintNFT) : Nat := 9

/-- `MintNFT.encoded_message`. -/
def MintNFT.encoded_message (m : MintNFT) : Option (List Nat) :=
  optConcat [
    int_to_bytes (0xff - m.tx_type) 1,
    int_to_bytes TRANSACTION_VERSION 1,
    serialize_account_id m.creator_id,
    serialize_address m.creator_address,
    serialize_content_hash m.content_hash,
    serialize_address m.recipient,
    serialize_token_id m.fee_token.id,
    packed_fee_checked m.fee,
    serialize_nonce m.nonce]

/-- `MintNFT.human_readable_message`: one fixed template that always renders
the fee through the decimal renderer. -/
def MintNFT.human_readable_message (m : MintNFT) : Option (List Char) :=
  (m.fee_token.decimal_str_amount m.fee).map (fun ds =>
    lchars "MintNFT " ++ m.content_hash ++ lchars " for: " ++
    strLower m.recipient ++ lchars "\nFee: " ++ ds ++ [' '] ++
    m.fee_token.symbol ++ lchars "\nNonce: " ++ natDigits m.nonce)

/-- `MintNFT.dict`: fails (attribute error) when the internal signature is
absent. -/
def MintNFT.dict (m : MintNFT) : Option JVal :=
  match m.signature with
  | none => none
  | some sg => some (JVal.obj [
      (lchars "type", JVal.str (lchars "MintNFT")),
      (lchars "creatorId", JVal.num m.creator_id),
      (lchars "creatorAddress", JVal.str m.creator_address),
      (lchars "contentHash", JVal.str m.content_hash),
      (lchars "recipient", JVal.str m.recipient),
      (lchars "feeToken", JVal.num m.fee_token.id),
      (lchars "fee", JVal.num m.fee),
      (lchars "nonce", JVal.num m.nonce),
      (lchars "signature", sg.dict)])

/-- `class WithdrawNFT`. -/
structure WithdrawNFT where
  account_id : Nat
  from_address : List Char
  to_address : List Char
  fee_token : Token
  fee : Nat
  nonce : Nat
  valid_from : Nat
  valid_until : Nat
  token_id : Nat
  signature : Option TxSignature := none

/-- `WithdrawNFT.tx_type`. -/
def WithdrawNFT.tx_type (_ : WithdrawNFT) : Nat := 10

/-- `WithdrawNFT.encoded_message`. -/
def WithdrawNFT.encoded_message (w : WithdrawNFT) : Option (List Nat) :=
  optConcat [
    int_to_bytes (0xff - w.tx_type) 1,
    int_to_bytes TRANSACTION_VERSION 1,
    serialize_account_id w.account_id,
    serialize_address w.from_address,
    serialize_address w.to_address,
    serialize_token_id w.token_id,
    serialize_token_id w.fee_token.id,
    packed_fee_checked w.fee,
    serialize_nonce w.nonce,
    serialize_timestamp w.valid_from,
    serialize_timestamp w.valid_until]

/-- `WithdrawNFT.human_readable_message`: one fixed template that always
renders the fee through the decimal renderer. -/
def WithdrawNFT.human_readable_message (w : WithdrawNFT) :
    Option (List Char) :=
  (w.fee_token.decimal_str_amount w.fee).map (fun ds =>
    lchars "WithdrawNFT " ++ natDigits w.token_id ++ lchars " to: " ++
    strLower w.to_address ++ lchars "\nFee: " ++ ds ++ [' '] ++
    w.fee_token.symbol ++ lchars "\nNonce: " ++ natDigits w.nonce)

/-- `WithdrawNFT.dict`: fails (attribute error) when the internal signature
is absent. -/
def WithdrawNFT.dict (w : WithdrawNFT) : Option JVal :=
  match w.signature with
  | none => none
  | some sg => some (JVal.obj [
      (lchars "type", JVal.str (lchars "WithdrawNFT")),
      (lchars "accountId", JVal.num w.account_id),
      (lchars "from", JVal.str w.from_address),
      (lchars "to", JVal.str w.to_address),
      (lchars "feeToken", JVal.num w.fee_token.id),
      (lchars "fee", JVal.num w.fee),
      (lchars "nonce", JVal.num w.nonce),
      (lchars "validFrom", JVal.num w.valid_from),
      (lchars "validUntil", JVal.num w.valid_until),
      (lchars "token", JVal.num w.token_id),
      (lchars "signature", sg.dict)])

/-! General-purpose lemmas about the helper functions. -/

theorem digitChar_mem_digitSet (d : Nat) : digitChar d ∈ digitSet := by
unfold digitChar
split <;> decide

theorem mem_digitSet_iff {c : Char} :
    c ∈ digitSet ↔ (c = '0' ∨ c = '1' ∨ c = '2' ∨ c = '3' ∨ c = '4' ∨
      c = '5' ∨ c = '6' ∨ c = '7' ∨ c = '8' ∨ c = '9') := by
simp [digitSet]

theorem digitChar_eq_zero {d : Nat} (h : digitChar d = '0') : d = 0 := by
revert h
unfold digitChar
split <;> simp_all

theorem natDigitsAux_ne_nil (fuel n : Nat) :
    natDigitsAux (fuel + 1) n ≠ [] := by
unfold natDigitsAux
split <;> simp

theorem natDigits_ne_nil (n : Nat) : natDigits n ≠ [] :=
natDigitsAux_ne_nil n n

theorem mem_natDigitsAux_digitSet (fuel : Nat) :
    ∀ (n : Nat), ∀ c ∈ natDigitsAux fuel n, c ∈ digitSet := by
induction fuel with
| zero => intro n c hc; simp [natDigitsAux] at hc
| succ fuel ih =>
  intro n c hc
  unfold natDigitsAux at hc
  split at hc
  · simp at hc
    exact hc ▸ digitChar_mem_digitSet n
  · rcases List.mem_append.1 hc with h | h
    · exact ih _ c h
    · simp at h
      exact h ▸ digitChar_mem_digitSet (n % 10)

theorem mem_natDigits_digitSet (n : Nat) :
    ∀ c ∈ natDigits n, c ∈ digitSet :=
mem_natDigitsAux_digitSet (n + 1) n

theorem natDigitsAux_all_zero (fuel : Nat) :
    ∀ (n : Nat), n < 10 ^ fuel →
      (∀ c ∈ natDigitsAux fuel n, c = '0') → n = 0 := by
induction fuel with
| zero => intro n hn _; simpa using hn
| succ fuel ih =>
  intro n hn hall
  unfold natDigitsAux at hall
  split at hall
  · exact digitChar_eq_zero (hall _ (by simp))
  · rename_i hge
    exfalso
    have h1 : n / 10 < 10 ^ fuel := by
      rw [Nat.div_lt_iff_lt_mul (by norm_num)]
      calc n < 10 ^ (fuel + 1) := hn
        _ = 10 ^ fuel * 10 := by ring
    have h2 : n / 10 = 0 :=
      ih (n / 10) h1 (fun c hc => hall c (List.mem_append.2 (Or.inl hc)))
    omega

theorem natDigits_all_zero {n : Nat}
    (h : ∀ c ∈ natDigits n, c = '0') : n = 0 := by
refine natDigitsAux_all_zero (n + 1) n ?_ h
calc n < 10 ^ n := Nat.lt_pow_self (by norm_num) n
  _ ≤ 10 ^ (n + 1) := Nat.pow_le_pow_right (by norm_num) (by omega)

theorem dropWhile_append_cons (p : Char → Bool) (c : Char)
    (hc : p c = false) (x y : List Char) :
    List.dropWhile p (x ++ c :: y) = List.dropWhile p x ++ c :: y := by
induction x with
| nil => simp [List.dropWhile_cons, hc]
| cons a x ih =>
  simp only [List.cons_append, List.dropWhile_cons]
  split <;> simp [ih]

theorem rstrip0_append_cons {c : Char} (hc : c ≠ '0') (a b : List Char) :
    rstrip0 (a ++ c :: b) = a ++ c :: rstrip0 b := by
unfold rstrip0
have hpc : (c == '0') = false := by simpa using hc
rw [show a ++ c :: b = a ++ ([c] ++ b) from rfl, List.reverse_append,
  List.reverse_append, List.reverse_cons, List.reverse_nil,
  List.nil_append, List.append_assoc]
rw [show [c] ++ a.reverse = c :: a.reverse from rfl,
  dropWhile_append_cons (fun x => x == '0') c hpc]
simp

theorem rstrip0_eq_nil_iff {l : List Char} :
    rstrip0 l = [] ↔ ∀ c ∈ l, c = '0' := by
unfold rstrip0
rw [List.reverse_eq_nil_iff, List.dropWhile_eq_nil_iff]
constructor
· intro h c hc
  simpa using h c (List.mem_reverse.2 hc)
· intro h c hc
  simpa using h c (List.mem_reverse.1 hc)

theorem dropWhile_head_false {p : Char → Bool} :
    ∀ {l h t}, List.dropWhile p l = h :: t → p h = false := by
intro l
induction l with
| nil => intro h t hl; simp [List.dropWhile] at hl
| cons a l ih =>
  intro h t hl
  rw [List.dropWhile_cons] at hl
  split at hl
  · exact ih hl
  · rename_i hpa
    cases hl
    simpa using hpa

theorem rstrip0_getLast_ne_zero {l : List Char} {c : Char}
    (h : (rstrip0 l).getLast? = some c) : c ≠ '0' := by
unfold rstrip0 at h
rw [List.getLast?_reverse] at h
rcases hd : List.dropWhile (fun c => c == '0') l.reverse with _ | ⟨h0, t0⟩
· rw [hd] at h; simp at h
· rw [hd] at h
  simp at h
  have := dropWhile_head_false hd
  subst h
  simpa using this

theorem rstrip0_subset {l : List Char} : ∀ c ∈ rstrip0 l, c ∈ l := by
intro c hc
unfold rstrip0 at hc
rw [List.mem_reverse] at hc
exact List.mem_reverse.1 ((List.dropWhile_sublist _).subset hc)

theorem optConcat_eq_some {o : Option (List Nat)}
    {rest : List (Option (List Nat))} {bs : List Nat}
    (h : optConcat (o :: rest) = some bs) :
    ∃ b r, o = some b ∧ optConcat rest = some r ∧ bs = b ++ r := by
rcases o with _ | b
· simp [optConcat] at h
· rcases hr : optConcat rest with _ | r
  · rw [optConcat, hr] at h; simp at h
  · rw [optConcat, hr] at h
    simp at h
    exact ⟨b, r, rfl, rfl, h.symm⟩

theorem optConcat_none_of_mem {l : List (Option (List Nat))}
    (h : none ∈ l) : optConcat l = none := by
induction l with
| nil => simp at h
| cons o rest ih =>
  rcases List.mem_cons.1 h with rfl | h2
  · simp [optConcat]
  · rw [optConcat, ih h2]
    rcases o <;> simp

theorem beBytes_length (len val : Nat) : (beBytes len val).length = len := by
simp [beBytes]

theorem int_to_bytes_length {val len : Nat} {bs : List Nat}
    (h : int_to_bytes val len = some bs) : bs.length = len := by
unfold int_to_bytes at h
split at h
· cases h; exact beBytes_length _ _
· cases h

theorem serialize_address_length {a : List Char} {bs : List Nat}
    (h : serialize_address a = some bs) : bs.length = 20 := by
unfold serialize_address at h
rcases hd : hexDecode (stripAddrTag a) with _ | l <;> rw [hd] at h
· simp at h
· replace h : (if l.length = 20 then some l else none) = some bs := h
  split at h
  · cases h; assumption
  · cases h

theorem packed_fee_length {fee : Nat} {bs : List Nat}
    (h : packed_fee_checked fee = some bs) : bs.length = 1 := by
unfold packed_fee_checked at h
split at h
· cases h; rfl
· cases h

theorem packed_amount_length {amount : Nat} {bs : List Nat}
    (h : packed_amount_checked amount = some bs) : bs.length = 5 := by
unfold packed_amount_checked at h
split at h
· cases h; exact beBytes_length _ _
· cases h

theorem getLast?_eq_some_mem {l : List Char} {c : Char}
    (h : l.getLast? = some c) : c ∈ l := by
have hm : c ∈ l.getLast? := h
rcases List.mem_getLast?_eq_getLast hm with ⟨hne, rfl⟩
exact List.getLast_mem hne

theorem mem_padDigits_digitSet (width n : Nat) :
    ∀ c ∈ padDigits width n, c ∈ digitSet := by
intro c hc
rcases List.mem_append.1 hc with h | h
· rw [List.eq_of_mem_replicate h]
  simp [mem_digitSet_iff]
· exact mem_natDigits_digitSet n c h

theorem padDigits_ne_nil (width n : Nat) : padDigits width n ≠ [] := by
unfold padDigits
simp [natDigits_ne_nil n]

/-- Structure of a successful `decimal_str_amount` result: an all-digit
nonempty integer part, a point, and an all-digit nonempty fractional part
whose last digit is only `'0'` when it is the single kept digit. -/
theorem decimal_str_spec (t : Token) (a : Nat)
    (h : 1 ≤ t.decimals ∨ a ≠ 0) :
    ∃ ip fp, t.decimal_str_amount a = some (ip ++ '.' :: fp) ∧
      ip ≠ [] ∧ fp ≠ [] ∧
      (∀ c ∈ ip, c ∈ digitSet) ∧ (∀ c ∈ fp, c ∈ digitSet) ∧
      (fp.getLast? = some '0' → fp = ['0']) := by
by_cases hd : t.decimals = 0
· have ha : a ≠ 0 := by
    rcases h with h | h
    · omega
    · exact h
  have hstr : ¬ (rstrip0 (natDigits a) = []) := by
    rw [rstrip0_eq_nil_iff]
    intro hz
    exact ha (natDigits_all_zero hz)
  rcases hR : rstrip0 (natDigits a) with _ | ⟨r0, rs⟩
  · exact absurd hR hstr
  have hsub : ∀ c ∈ r0 :: rs, c ∈ digitSet := by
    intro c hc
    exact mem_natDigits_digitSet a c (rstrip0_subset c (hR ▸ hc))
  have hlast : ∃ c, (r0 :: rs).getLast? = some c := by
    rcases hL : (r0 :: rs).getLast? with _ | c
    · rw [List.getLast?_eq_none_iff] at hL
      cases hL
    · exact ⟨c, rfl⟩
  rcases hlast with ⟨c, hc⟩
  have hcz : c ≠ '0' := rstrip0_getLast_ne_zero (hR ▸ hc)
  have hcdig : c ∈ digitSet := hsub c (getLast?_eq_some_mem hc)
  have hcdot : c ≠ '.' := by
    rw [mem_digitSet_iff] at hcdig
    rcases hcdig with rfl|rfl|rfl|rfl|rfl|rfl|rfl|rfl|rfl|rfl <;> decide
  have hnodot : '.' ∉ r0 :: rs := by
    intro hmem
    have := hsub '.' hmem
    rw [mem_digitSet_iff] at this
    rcases this with h|h|h|h|h|h|h|h|h|h <;> cases h
  refine ⟨r0 :: rs, ['0'], ?_, by simp, by simp, hsub, ?_, ?_⟩
  · unfold Token.decimal_str_amount strip_fmt
    rw [if_pos hd, hR, hc]
    dsimp only
    rw [if_neg hcdot, if_neg hnodot]
  · intro c2 hc2
    simp at hc2
    simp [hc2, mem_digitSet_iff]
  · intro _; rfl
· have hd1 : ¬ (t.decimals = 0) := hd
  set I := natDigits (a / 10 ^ t.decimals) with hI
  set F := padDigits t.decimals (a % 10 ^ t.decimals) with hF
  have hIne : I ≠ [] := natDigits_ne_nil _
  have hIdig : ∀ c ∈ I, c ∈ digitSet := mem_natDigits_digitSet _
  have hFdig : ∀ c ∈ F, c ∈ digitSet := mem_padDigits_digitSet _ _
  have hsplit : rstrip0 (I ++ '.' :: F) = I ++ '.' :: rstrip0 F :=
    rstrip0_append_cons (by decide) I F
  rcases hRF : rstrip0 F with _ | ⟨r0, rs⟩
  · refine ⟨I, ['0'], ?_, hIne, by simp, hIdig, ?_, ?_⟩
    · unfold Token.decimal_str_amount strip_fmt
      rw [if_neg hd1, ← hI, ← hF, hsplit, hRF]
      rw [show (I ++ ['.']).getLast? = some '.' from List.getLast?_concat I]
      dsimp only
      rw [if_pos rfl]
      simp
    · intro c2 hc2
      simp at hc2
      simp [hc2, mem_digitSet_iff]
    · intro _; rfl
  · have hsubF : ∀ c ∈ r0 :: rs, c ∈ digitSet := by
      intro c hc
      exact hFdig c (rstrip0_subset c (hRF ▸ hc))
    have hlast : ∃ c, (r0 :: rs).getLast? = some c := by
      rcases hL : (r0 :: rs).getLast? with _ | c
      · rw [List.getLast?_eq_none_iff] at hL
        cases hL
      · exact ⟨c, rfl⟩
    rcases hlast with ⟨c, hc⟩
    have hcz : c ≠ '0' := rstrip0_getLast_ne_zero (hRF ▸ hc)
    have hcdig : c ∈ digitSet := hsubF c (getLast?_eq_some_mem hc)
    have hcdot : c ≠ '.' := by
      rw [mem_digitSet_iff] at hcdig
      rcases hcdig with rfl|rfl|rfl|rfl|rfl|rfl|rfl|rfl|rfl|rfl <;> decide
    refine ⟨I, r0 :: rs, ?_, hIne, by simp, hIdig, hsubF, ?_⟩
    · unfold Token.decimal_str_amount strip_fmt
      rw [if_neg hd1, ← hI, ← hF, hsplit, hRF]
      rw [List.getLast?_append_cons I '.' (r0 :: rs),
        List.getLast?_cons_cons, hc]
      dsimp only
      rw [if_neg hcdot]
      rw [if_pos (by simp : '.' ∈ I ++ '.' :: r0 :: rs)]
    · intro heq
      rw [hc] at heq
      cases heq
      exact absurd rfl hcz

/-! Concrete sample values used by the end-to-end vector and the witnesses. -/

/-- A 32-byte content hash in hex. -/
def hash32 : List Char := lchars
  "0x0000000000000000000000000000000000000000000000000000000000000000"

/-- The Transfer of the end-to-end test vector. -/
def tC2 : Transfer where
  account_id := 5
  from_address := DEFAULT_TOKEN_ADDRESS
  to_address := DEFAULT_TOKEN_ADDRESS
  token := Token.eth
  amount := 1000000000000000000
  fee := 0
  nonce := 0
  valid_from := 0
  valid_until := 4294967295

/-- A sample ChangePubKey. -/
def cpkX : ChangePubKey where
  account_id := 1
  account := DEFAULT_TOKEN_ADDRESS
  new_pk_hash := lchars "sync:0000000000000000000000000000000000000000"
  token := Token.eth
  fee := 0
  nonce := 0
  valid_from := 0
  valid_until := 0

/-- A sample Withdraw. -/
def wdX : Withdraw where
  account_id := 1
  from_address := DEFAULT_TOKEN_ADDRESS
  to_address := DEFAULT_TOKEN_ADDRESS
  amount := 34359738368
  fee := 0
  nonce := 0
  valid_from := 0
  valid_until := 4294967295
  token := Token.eth

/-- A sample ForcedExit. -/
def feX : ForcedExit where
  initiator_account_id := 1
  target := DEFAULT_TOKEN_ADDRESS
  token := Token.eth
  fee := 1000
  nonce := 3
  valid_from := 0
  valid_until := 0

/-- A sample MintNFT. -/
def mnX : MintNFT where
  creator_id := 1
  creator_address := DEFAULT_TOKEN_ADDRESS
  content_hash := hash32
  recipient := DEFAULT_TOKEN_ADDRESS
  fee := 0
  fee_token := Token.eth
  nonce := 4

/-- A sample WithdrawNFT. -/
def wnX : WithdrawNFT where
  account_id := 1
  from_address := DEFAULT_TOKEN_ADDRESS
  to_address := DEFAULT_TOKEN_ADDRESS
  fee_token := Token.eth
  fee := 0
  nonce := 5
  valid_from := 0
  valid_until := 0
  token_id := 70000

/-- A sample Order (first swap leg). -/
def ordX : Order where
  account_id := 6
  recipient := DEFAULT_TOKEN_ADDRESS
  nonce := 18
  token_sell := Token.eth
  token_buy := Token.eth
  amount := 1000000
  ratioNum := 1
  ratioDen := 2
  valid_from := 0
  valid_until := 4294967295

/-- A second sample Order (second swap leg), differing from `ordX`. -/
def ordY : Order where
  account_id := 7
  recipient := DEFAULT_TOKEN_ADDRESS
  nonce := 19
  token_sell := Token.eth
  token_buy := Token.eth
  amount := 2000000
  ratioNum := 2
  ratioDen := 1
  valid_from := 0
  valid_until := 4294967295

/-- A sample Swap over `ordX` and `ordY`. -/
def swX : Swap where
  submitter_id := 5
  submitter_address := DEFAULT_TOKEN_ADDRESS
  amounts := (1000000, 2000000)
  orders := (ordX, ordY)
  fee_token := Token.eth
  fee := 0
  nonce := 1

/-- A stand-in for the opaque order-hashing capability in witnesses. -/
def sampleHash (l : List Nat) : List Nat :=
  List.take 32 (l ++ List.replicate 32 0)

/-! Claim theorems. -/

theorem optConcat_take2 {x y : Nat} {rest : List (Option (List Nat))}
    {bs : List Nat}
    (h : optConcat (some [x] :: some [y] :: rest) = some bs) :
    bs.take 2 = [x, y] := by
obtain ⟨b1, r1, hb1, h1, rfl⟩ := optConcat_eq_some h
obtain ⟨b2, r2, hb2, h2, rfl⟩ := optConcat_eq_some h1
cases hb1
cases hb2
rfl

theorem int_to_bytes_version :
    int_to_bytes TRANSACTION_VERSION 1 = some [0x01] := by
show int_to_bytes 1 1 = some [1]
rfl

/-- C1: whenever a variant's `encoded_message` succeeds, its first byte is
`0xFF - tx_type()` and its second byte is the fixed version constant `0x01`
(for the Order sub-structure, the first byte is the ASCII value of `'o'`,
which is 111). -/
theorem C1_first_two_bytes :
    (∀ (c : ChangePubKey) (bs : List Nat), c.encoded_message = some bs →
      bs.take 2 = [0xff - c.tx_type, 0x01]) ∧
    (∀ (t : Transfer) (bs : List Nat), t.encoded_message = some bs →
      bs.take 2 = [0xff - t.tx_type, 0x01]) ∧
    (∀ (w : Withdraw) (bs : List Nat), w.encoded_message = some bs →
      bs.take 2 = [0xff - w.tx_type, 0x01]) ∧
    (∀ (f : ForcedExit) (bs : List Nat), f.encoded_message = some bs →
      bs.take 2 = [0xff - f.tx_type, 0x01]) ∧
    (∀ (m : MintNFT) (bs : List Nat), m.encoded_message = some bs →
      bs.take 2 = [0xff - m.tx_type, 0x01]) ∧
    (∀ (w : WithdrawNFT) (bs : List Nat), w.encoded_message = some bs →
      bs.take 2 = [0xff - w.tx_type, 0x01]) ∧
    (∀ (s : Swap) (hf : List Nat → List Nat) (bs : List Nat),
      s.encoded_message hf = some bs →
      bs.take 2 = [0xff - s.tx_type, 0x01]) ∧
    (∀ (o : Order) (bs : List Nat), o.encoded_message = some bs →
      bs.take 2 = [111, 0x01]) := by
refine ⟨?_, ?_, ?_, ?_, ?_, ?_, ?_, ?_⟩
· intro c bs h
  unfold ChangePubKey.encoded_message at h
  have e1 : int_to_bytes (0xff - c.tx_type) 1 = some [0xf8] := by
    show int_to_bytes 248 1 = some [248]
    rfl
  rw [e1, int_to_bytes_version] at h
  show bs.take 2 = [0xf8, 0x01]
  exact optConcat_take2 h
· intro t bs h
  unfold Transfer.encoded_message at h
  have e1 : int_to_bytes (0xff - t.tx_type) 1 = some [0xfa] := by
    show int_to_bytes 250 1 = some [250]
    rfl
  rw [e1, int_to_bytes_version] at h
  show bs.take 2 = [0xfa, 0x01]
  exact optConcat_take2 h
· intro w bs h
  unfold Withdraw.encoded_message at h
  have e1 : int_to_bytes (0xff - w.tx_type) 1 = some [0xfc] := by
    show int_to_bytes 252 1 = some [252]
    rfl
  rw [e1, int_to_bytes_version] at h
  show bs.take 2 = [0xfc, 0x01]
  exact optConcat_take2 h
· intro f bs h
  unfold ForcedExit.encoded_message at h
  have e1 : int_to_bytes (0xff - f.tx_type) 1 = some [0xf7] := by
    show int_to_bytes 247 1 = some [247]
    rfl
  rw [e1, int_to_bytes_version] at h
  show bs.take 2 = [0xf7, 0x01]
  exact optConcat_take2 h
· intro m bs h
  unfold MintNFT.encoded_message at h
  have e1 : int_to_bytes (0xff - m.tx_type) 1 = some [0xf6] := by
    show int_to_bytes 246 1 = some [246]
    rfl
  rw [e1, int_to_bytes_version] at h
  show bs.take 2 = [0xf6, 0x01]
  exact optConcat_take2 h
· intro w bs h
  unfold WithdrawNFT.encoded_message at h
  have e1 : int_to_bytes (0xff - w.tx_type) 1 = some [0xf5] := by
    show int_to_bytes 245 1 = some [245]
    rfl
  rw [e1, int_to_bytes_version] at h
  show bs.take 2 = [0xf5, 0x01]
  exact optConcat_take2 h
· intro s hf bs h
  unfold Swap.encoded_message at h
  rcases hob : s.order_bytes with _ | ob <;> rw [hob] at h
  · cases h
  · have e1 : int_to_bytes (0xff - s.tx_type) 1 = some [0xf4] := by
      show int_to_bytes 244 1 = some [244]
      rfl
    rw [e1, int_to_bytes_version] at h
    show bs.take 2 = [0xf4, 0x01]
    exact optConcat_take2 h
· intro o bs h
  unfold Order.encoded_message at h
  have e1 : int_to_bytes (o.msg_type) 1 = some [111] := by
    show int_to_bytes 111 1 = some [111]
    rfl
  rw [e1, int_to_bytes_version] at h
  exact optConcat_take2 h

/-- Witness for C1: the first-two-bytes law evaluated on concrete
instances of every variant. -/
theorem C1_first_two_bytes_witness :
    List.take 2 ((cpkX.encoded_message).getD []) = [0xf8, 0x01] ∧
    List.take 2 ((tC2.encoded_message).getD []) = [0xfa, 0x01] ∧
    List.take 2 ((wdX.encoded_message).getD []) = [0xfc, 0x01] ∧
    List.take 2 ((feX.encoded_message).getD []) = [0xf7, 0x01] ∧
    List.take 2 ((mnX.encoded_message).getD []) = [0xf6, 0x01] ∧
    List.take 2 ((wnX.encoded_message).getD []) = [0xf5, 0x01] ∧
    List.take 2 ((swX.encoded_message sampleHash).getD []) = [0xf4, 0x01] ∧
    List.take 2 ((ordX.encoded_message).getD []) = [111, 0x01] :=
⟨C1_first_two_bytes.1 cpkX _ (by decide),
 C1_first_two_bytes.2.1 tC2 _ (by decide),
 C1_first_two_bytes.2.2.1 wdX _ (by decide),
 C1_first_two_bytes.2.2.2.1 feX _ (by decide),
 C1_first_two_bytes.2.2.2.2.1 mnX _ (by decide),
 C1_first_two_bytes.2.2.2.2.2.1 wnX _ (by decide),
 C1_first_two_bytes.2.2.2.2.2.2.1 swX sampleHash _ (by decide),
 C1_first_two_bytes.2.2.2.2.2.2.2 ordX _ (by decide)⟩

/-- C2: the end-to-end Transfer vector (account id 5, all-zero addresses,
ETH token, amount `10^18`, fee 0, nonce 0, validity `[0, 2^32)`) encodes to
exactly 76 bytes whose first two bytes are `0xFA, 0x01`. -/
theorem C2_transfer_vector :
    (tC2.encoded_message).map List.length = some 76 ∧
    (tC2.encoded_message).map (List.take 2) = some [0xFA, 0x01] := by
constructor <;> decide

theorem serialize_account_id_length {i : Nat} {bs : List Nat}
    (h : serialize_account_id i = some bs) : bs.length = 4 :=
int_to_bytes_length h

theorem serialize_token_id_length {i : Nat} {bs : List Nat}
    (h : serialize_token_id i = some bs) : bs.length = 4 :=
int_to_bytes_length h

theorem serialize_nonce_length {i : Nat} {bs : List Nat}
    (h : serialize_nonce i = some bs) : bs.length = 4 :=
int_to_bytes_length h

theorem serialize_timestamp_length {i : Nat} {bs : List Nat}
    (h : serialize_timestamp i = some bs) : bs.length = 8 :=
int_to_bytes_length h

/-- The Transfer of the end-to-end vector with the amount replaced by
`2^35`, which is not exactly packable. -/
def trBad : Transfer :=
  { tC2 with amount := 34359738368 }

/-- C3: Withdraw serializes its amount as a raw 16-byte big-endian integer
with no packing constraint — any amount below `2^128` encodes (other fields
permitting) and occupies bytes 50 to 65 of the payload — whereas Transfer
packs its amount and its encoding fails whenever the amount is not exactly
packable. -/
theorem C3_raw_vs_packed :
    (∀ (w : Withdraw), w.amount < 2 ^ 128 →
      (serialize_account_id w.account_id).isSome →
      (serialize_address w.from_address).isSome →
      (serialize_address w.to_address).isSome →
      (serialize_token_id w.token.id).isSome →
      (packed_fee_checked w.fee).isSome →
      (serialize_nonce w.nonce).isSome →
      (serialize_timestamp w.valid_from).isSome →
      (serialize_timestamp w.valid_until).isSome →
      ∃ bs, w.encoded_message = some bs ∧
        (bs.drop 50).take 16 = beBytes 16 w.amount) ∧
    (∀ (t : Transfer), packed_amount_checked t.amount = none →
      t.encoded_message = none) := by
constructor
· intro w hlt h1 h2 h3 h4 h5 h6 h7 h8
  rw [Option.isSome_iff_exists] at h1 h2 h3 h4 h5 h6 h7 h8
  obtain ⟨b1, hb1⟩ := h1
  obtain ⟨b2, hb2⟩ := h2
  obtain ⟨b3, hb3⟩ := h3
  obtain ⟨b4, hb4⟩ := h4
  obtain ⟨b5, hb5⟩ := h5
  obtain ⟨b6, hb6⟩ := h6
  obtain ⟨b7, hb7⟩ := h7
  obtain ⟨b8, hb8⟩ := h8
  have hamt : int_to_bytes w.amount 16 = some (beBytes 16 w.amount) := by
    unfold int_to_bytes
    rw [if_pos]
    calc w.amount < 2 ^ 128 := hlt
      _ = 256 ^ 16 := by norm_num
  have e1 : int_to_bytes (0xff - w.tx_type) 1 = some [0xfc] := by
    show int_to_bytes 252 1 = some [252]
    rfl
  refine ⟨([0xfc, 0x01] ++ b1 ++ b2 ++ b3 ++ b4) ++
    (beBytes 16 w.amount ++ (b5 ++ b6 ++ b7 ++ b8)), ?_, ?_⟩
  · unfold Withdraw.encoded_message
    rw [e1, int_to_bytes_version, hb1, hb2, hb3, hb4, hamt, hb5, hb6,
      hb7, hb8]
    simp [optConcat]
  · have hfront : ([0xfc, 0x01] ++ b1 ++ b2 ++ b3 ++ b4).length = 50 := by
      simp [serialize_account_id_length hb1, serialize_address_length hb2,
        serialize_address_length hb3, serialize_token_id_length hb4]
    rw [List.drop_left' hfront, List.take_left' (beBytes_length 16 w.amount)]
· intro t h
  unfold Transfer.encoded_message
  rw [h]
  exact optConcat_none_of_mem (by simp)

/-- Witness for C3: the concrete Withdraw `wdX` carries amount `2^35` (not
packable) raw at bytes 50–65, while the Transfer `trBad` with that same
amount fails to encode. -/
theorem C3_raw_vs_packed_witness :
    List.take 16 (List.drop 50 ((wdX.encoded_message).getD [])) =
      beBytes 16 34359738368 ∧
    trBad.encoded_message = none := by
constructor
· obtain ⟨bs, h1, h2⟩ := C3_raw_vs_packed.1 wdX (by decide) (by decide)
    (by decide) (by decide) (by decide) (by decide) (by decide) (by decide)
    (by decide)
  rw [h1]
  exact h2
· exact C3_raw_vs_packed.2 trBad (by decide)

theorem order_encoded_length {o : Order} {bs : List Nat}
    (h : o.encoded_message = some bs) : bs.length = 91 := by
unfold Order.encoded_message at h
obtain ⟨b1, r1, hb1, h1, rfl⟩ := optConcat_eq_some h
obtain ⟨b2, r2, hb2, h2, rfl⟩ := optConcat_eq_some h1
obtain ⟨b3, r3, hb3, h3, rfl⟩ := optConcat_eq_some h2
obtain ⟨b4, r4, hb4, h4, rfl⟩ := optConcat_eq_some h3
obtain ⟨b5, r5, hb5, h5, rfl⟩ := optConcat_eq_some h4
obtain ⟨b6, r6, hb6, h6, rfl⟩ := optConcat_eq_some h5
obtain ⟨b7, r7, hb7, h7, rfl⟩ := optConcat_eq_some h6
obtain ⟨b8, r8, hb8, h8, rfl⟩ := optConcat_eq_some h7
obtain ⟨b9, r9, hb9, h9, rfl⟩ := optConcat_eq_some h8
obtain ⟨b10, r10, hb10, h10, rfl⟩ := optConcat_eq_some h9
obtain ⟨b11, r11, hb11, h11, rfl⟩ := optConcat_eq_some h10
obtain ⟨b12, r12, hb12, h12, rfl⟩ := optConcat_eq_some h11
have hr12 : r12 = [] := by
  rw [show optConcat [] = some [] from rfl] at h12
  cases h12
  rfl
subst hr12
simp [int_to_bytes_length hb1, int_to_bytes_length hb2,
  serialize_account_id_length hb3, serialize_address_length hb4,
  serialize_nonce_length hb5, serialize_token_id_length hb6,
  serialize_token_id_length hb7, int_to_bytes_length hb8,
  int_to_bytes_length hb9, packed_amount_length hb10,
  serialize_timestamp_length hb11, serialize_timestamp_length hb12]

/-- C5: (0) `order_bytes` is exactly the concatenation of the two legs' own
encoded messages in leg order; (1) the payload consults the hashing
capability only at that input — two capabilities agreeing there give the
same payload; (2) the payload depends on the nested orders only through the
hash of `order_bytes`; (3) swapping the two legs changes the hash input
whenever the legs' encodings differ. -/
theorem C5_swap_hash_input :
    (∀ (s : Swap) (a b : List Nat),
      s.orders.1.encoded_message = some a →
      s.orders.2.encoded_message = some b →
      s.order_bytes = some (a ++ b)) ∧
    (∀ (g h : List Nat → List Nat) (s : Swap) (ob : List Nat),
      s.order_bytes = some ob → g ob = h ob →
      s.encoded_message g = s.encoded_message h) ∧
    (∀ (h : List Nat → List Nat) (u v : Swap),
      u.submitter_id = v.submitter_id →
      u.submitter_address = v.submitter_address →
      u.amounts = v.amounts →
      u.fee_token = v.fee_token →
      u.fee = v.fee →
      u.nonce = v.nonce →
      (u.order_bytes).map h = (v.order_bytes).map h →
      u.encoded_message h = v.encoded_message h) ∧
    (∀ (s : Swap) (a b : List Nat),
      s.orders.1.encoded_message = some a →
      s.orders.2.encoded_message = some b →
      a ≠ b →
      s.order_bytes ≠
        ({ s with orders := (s.orders.2, s.orders.1) } : Swap).order_bytes) := by
refine ⟨?_, ?_, ?_, ?_⟩
· intro s a b ha hb
  unfold Swap.order_bytes
  rw [ha, hb]
  simp [optConcat]
· intro g h s ob hob heq
  unfold Swap.encoded_message
  rw [hob]
  dsimp only
  rw [heq]
· intro h u v e1 e2 e3 e4 e5 e6 hmap
  unfold Swap.encoded_message
  rcases hob1 : u.order_bytes with _ | ob1 <;>
    rcases hob2 : v.order_bytes with _ | ob2 <;>
    rw [hob1, hob2] at hmap <;> simp at hmap
  dsimp only
  rw [e1, e2, e3, e4, e5, e6, hmap]
  exact rfl
· intro s a b ha hb hne hcon
  have h1 : s.order_bytes = some (a ++ b) := by
    unfold Swap.order_bytes
    rw [ha, hb]
    simp [optConcat]
  have h2 : ({ s with orders := (s.orders.2, s.orders.1) } : Swap).order_bytes
      = some (b ++ a) := by
    show optConcat [s.orders.2.encoded_message,
      s.orders.1.encoded_message] = some (b ++ a)
    rw [ha, hb]
    simp [optConcat]
  rw [h1, h2] at hcon
  have hab : a ++ b = b ++ a := by
    injection hcon
  have hlen : a.length = b.length := by
    rw [order_encoded_length ha, order_encoded_length hb]
  exact hne (List.append_inj hab hlen).1

/-- A Swap equal to `swX` except that its two legs are interchanged. -/
def swRev : Swap :=
  { swX with orders := (ordY, ordX) }

/-- A second stand-in hashing capability: constant. -/
def constHash (_ : List Nat) : List Nat := List.replicate 32 0

/-- Witness for C5: evaluated on the concrete swap `swX` with legs `ordX`
and `ordY` (whose encodings differ) and on concrete hashing stand-ins. -/
theorem C5_swap_hash_input_witness :
    swX.order_bytes =
      some (((ordX.encoded_message).getD []) ++
        ((ordY.encoded_message).getD [])) ∧
    swX.encoded_message sampleHash =
      swX.encoded_message (fun l => List.take 32 (l ++ List.replicate 32 0)) ∧
    swX.encoded_message constHash = swRev.encoded_message constHash ∧
    swX.order_bytes ≠ swRev.order_bytes :=
⟨C5_swap_hash_input.1 swX ((ordX.encoded_message).getD [])
   ((ordY.encoded_message).getD []) (by decide) (by decide),
 C5_swap_hash_input.2.1 sampleHash
   (fun l => List.take 32 (l ++ List.replicate 32 0)) swX
   (((ordX.encoded_message).getD []) ++ ((ordY.encoded_message).getD []))
   (C5_swap_hash_input.1 swX ((ordX.encoded_message).getD [])
     ((ordY.encoded_message).getD []) (by decide) (by decide)) rfl,
 C5_swap_hash_input.2.2.1 constHash swX swRev rfl rfl rfl rfl rfl rfl
   (by decide),
 C5_swap_hash_input.2.2.2 swX ((ordX.encoded_message).getD [])
   ((ordY.encoded_message).getD []) (by decide) (by decide) (by decide)⟩

/-- A token with 0 decimals (the spec's data model allows any non-negative
`decimals`). -/
def tokD0 : Token where
  address := DEFAULT_TOKEN_ADDRESS
  id := 7
  symbol := lchars "XNFT"
  decimals := 0

/-- A token with 6 decimals. -/
def tok6 : Token where
  address := DEFAULT_TOKEN_ADDRESS
  id := 2
  symbol := lchars "USDC"
  decimals := 6

/-- Counterexample to C6 as stated: for a token with 0 decimals (a
non-negative `decimals` value) and amount 0, `decimal_str_amount` does not
return any string at all — the Python code formats `0`, strips it to the
empty string, and the `d_str[-1]` access raises `IndexError` — so the result
neither contains a decimal point nor keeps a fractional digit. -/
theorem C6_counterexample : tokD0.decimal_str_amount 0 = none := by
decide

/-- C6 (amended): for every token and amount with `decimals ≥ 1` or a
nonzero amount — every case except the `decimals = 0`, `amount = 0` crash —
`decimal_str_amount` returns a string with no scientific notation (no `e` or
`E`), containing a decimal point, split as nonempty all-digit integer and
fractional parts with trailing zeros stripped down to at least one kept
fractional digit; and the three 6-decimal examples evaluate as the claim
lists. -/
theorem C6_decimal_str :
    (∀ (t : Token) (a : Nat), 1 ≤ t.decimals ∨ a ≠ 0 →
      ∃ s, t.decimal_str_amount a = some s ∧
        '.' ∈ s ∧
        (∀ c ∈ s, c ≠ 'e' ∧ c ≠ 'E') ∧
        ∃ ip fp, s = ip ++ '.' :: fp ∧ ip ≠ [] ∧ fp ≠ [] ∧
          (∀ c ∈ ip, c ∈ digitSet) ∧ (∀ c ∈ fp, c ∈ digitSet) ∧
          (fp.getLast? = some '0' → fp = ['0'])) ∧
    tok6.decimal_str_amount 1000000 = some (lchars "1.0") ∧
    tok6.decimal_str_amount 1500000 = some (lchars "1.5") ∧
    tok6.decimal_str_amount 0 = some (lchars "0.0") := by
refine ⟨?_, by decide, by decide, by decide⟩
intro t a h
obtain ⟨ip, fp, hs, hip, hfp, hipd, hfpd, hlast⟩ := decimal_str_spec t a h
refine ⟨ip ++ '.' :: fp, hs, by simp, ?_, ip, fp, rfl, hip, hfp, hipd,
  hfpd, hlast⟩
intro c hc
rcases List.mem_append.1 hc with h1 | h1
· have := hipd c h1
  rw [mem_digitSet_iff] at this
  rcases this with rfl|rfl|rfl|rfl|rfl|rfl|rfl|rfl|rfl|rfl <;> decide
· rcases List.mem_cons.1 h1 with rfl | h2
  · decide
  · have := hfpd c h2
    rw [mem_digitSet_iff] at this
    rcases this with rfl|rfl|rfl|rfl|rfl|rfl|rfl|rfl|rfl|rfl <;> decide

/-- Witness for C6: the amended property evaluated at the ETH token
(18 decimals) and amount 123. -/
theorem C6_decimal_str_witness :
    ∃ s, Token.eth.decimal_str_amount 123 = some s ∧
      '.' ∈ s ∧
      (∀ c ∈ s, c ≠ 'e' ∧ c ≠ 'E') ∧
      ∃ ip fp, s = ip ++ '.' :: fp ∧ ip ≠ [] ∧ fp ≠ [] ∧
        (∀ c ∈ ip, c ∈ digitSet) ∧ (∀ c ∈ fp, c ∈ digitSet) ∧
        (fp.getLast? = some '0' → fp = ['0']) :=
C6_decimal_str.1 Token.eth 123 (Or.inl (by decide))

theorem bind_bind_some {oa ob : Option (List Char)}
    {g : List Char → List Char → List Char} {m : List Char}
    (h : (oa.bind fun a => ob.bind fun b => some (g a b)) = some m) :
    ∃ a b, oa = some a ∧ ob = some b ∧ m = g a b := by
rcases oa with _ | a
· simp at h
· rcases ob with _ | b
  · simp at h
  · simp at h
    exact ⟨a, b, rfl, rfl, h.symm⟩

theorem split_tail (X : List Char) (n : Nat) :
    ∃ r, X ++ lchars "\nNonce: " ++ natDigits n =
      r ++ (lchars "Nonce: " ++ natDigits n) ∧
      (r = [] ∨ ∃ q, r = q ++ ['\n']) := by
refine ⟨X ++ ['\n'], ?_, Or.inr ⟨X, rfl⟩⟩
rw [show lchars "\nNonce: " = '\n' :: lchars "Nonce: " by decide]
simp

/-- The ChangePubKey instance exhibiting the missing nonce line: fee 0 and
a `sync:`-tagged key hash. -/
def cpkCE : ChangePubKey where
  account_id := 0
  account := DEFAULT_TOKEN_ADDRESS
  new_pk_hash := lchars "sync:ABCD"
  token := Token.eth
  fee := 0
  nonce := 0
  valid_from := 0
  valid_until := 0

/-- A ForcedExit whose message rendering fails: fee 0 with a 0-decimals fee
token makes the decimal renderer raise. -/
def feCE : ForcedExit where
  initiator_account_id := 0
  target := DEFAULT_TOKEN_ADDRESS
  token := tokD0
  fee := 0
  nonce := 0
  valid_from := 0
  valid_until := 0

/-- Counterexample to C4 as stated: ChangePubKey's message is the
signing-key line (plus an optional fee line) and never ends with a
`Nonce:` line — here the whole message is `Set signing key: abcd`, which
has no suffix of the form `Nonce: <nonce>`; additionally, ForcedExit with
fee 0 and a 0-decimals token produces no message at all (the fee renderer
raises). -/
theorem C4_counterexample :
    cpkCE.human_readable_message = some (lchars "Set signing key: abcd") ∧
    (¬ ∃ r, lchars "Set signing key: abcd" =
        r ++ (lchars "Nonce: " ++ natDigits cpkCE.nonce)) ∧
    feCE.human_readable_message = none := by
refine ⟨by decide, ?_, by decide⟩
rintro ⟨r, hr⟩
have h1 : (lchars "Set signing key: abcd").getLast? = some 'd' := by decide
rw [hr, show lchars "Nonce: " ++ natDigits cpkCE.nonce = lchars "Nonce: 0"
  by decide] at h1
rw [List.getLast?_append_of_ne_nil r (by decide)] at h1
exact absurd h1 (by decide)

/-- C4 (amended): every transaction variant other than ChangePubKey —
Transfer, Withdraw, ForcedExit, MintNFT, WithdrawNFT, Swap, and the Order
sub-structure — ends its human-readable message, whenever one is produced,
with a final line `Nonce: <n>` for its own nonce field (ChangePubKey's
message has no nonce line, and the three unconditional-fee templates
produce no message when the fee string fails to render). -/
theorem C4_nonce_tail :
    (∀ (t : Transfer) (m : List Char),
      t.human_readable_message = some m →
      ∃ r, m = r ++ (lchars "Nonce: " ++ natDigits t.nonce) ∧
        (r = [] ∨ ∃ q, r = q ++ ['\n'])) ∧
    (∀ (w : Withdraw) (m : List Char),
      w.human_readable_message = some m →
      ∃ r, m = r ++ (lchars "Nonce: " ++ natDigits w.nonce) ∧
        (r = [] ∨ ∃ q, r = q ++ ['\n'])) ∧
    (∀ (f : ForcedExit) (m : List Char),
      f.human_readable_message = some m →
      ∃ r, m = r ++ (lchars "Nonce: " ++ natDigits f.nonce) ∧
        (r = [] ∨ ∃ q, r = q ++ ['\n'])) ∧
    (∀ (x : MintNFT) (m : List Char),
      x.human_readable_message = some m →
      ∃ r, m = r ++ (lchars "Nonce: " ++ natDigits x.nonce) ∧
        (r = [] ∨ ∃ q, r = q ++ ['\n'])) ∧
    (∀ (w : WithdrawNFT) (m : List Char),
      w.human_readable_message = some m →
      ∃ r, m = r ++ (lchars "Nonce: " ++ natDigits w.nonce) ∧
        (r = [] ∨ ∃ q, r = q ++ ['\n'])) ∧
    (∀ (s : Swap) (m : List Char),
      s.human_readable_message = some m →
      ∃ r, m = r ++ (lchars "Nonce: " ++ natDigits s.nonce) ∧
        (r = [] ∨ ∃ q, r = q ++ ['\n'])) ∧
    (∀ (o : Order) (m : List Char),
      o.human_readable_message = some m →
      ∃ r, m = r ++ (lchars "Nonce: " ++ natDigits o.nonce) ∧
        (r = [] ∨ ∃ q, r = q ++ ['\n'])) := by
refine ⟨?_, ?_, ?_, ?_, ?_, ?_, ?_⟩
· intro t m hm
  unfold Transfer.human_readable_message at hm
  obtain ⟨a, b, hA, hB, rfl⟩ := bind_bind_some hm
  refine ⟨a ++ b, by simp, ?_⟩
  by_cases h2 : t.fee ≠ 0
  · rw [if_pos h2] at hB
    rcases hds : t.token.decimal_str_amount t.fee with _ | ds <;>
      rw [hds] at hB
    · simp at hB
    · simp at hB
      refine Or.inr ⟨a ++ (lchars "Fee: " ++ ds ++ [' '] ++
        t.token.symbol), ?_⟩
      rw [← hB]
      simp
  · rw [if_neg h2] at hB
    cases hB
    by_cases h1 : t.amount ≠ 0
    · rw [if_pos h1] at hA
      rcases hds : t.token.decimal_str_amount t.amount with _ | ds <;>
        rw [hds] at hA
      · simp at hA
      · simp at hA
        refine Or.inr ⟨lchars "Transfer " ++ ds ++ [' '] ++
          t.token.symbol ++ lchars " to: " ++ strLower t.to_address, ?_⟩
        rw [← hA]
        simp
    · rw [if_neg h1] at hA
      cases hA
      exact Or.inl rfl
· intro w m hm
  unfold Withdraw.human_readable_message at hm
  obtain ⟨a, b, hA, hB, rfl⟩ := bind_bind_some hm
  refine ⟨a ++ b, by simp, ?_⟩
  by_cases h2 : w.fee ≠ 0
  · rw [if_pos h2] at hB
    rcases hds : w.token.decimal_str_amount w.fee with _ | ds <;>
      rw [hds] at hB
    · simp at hB
    · simp at hB
      refine Or.inr ⟨a ++ (lchars "Fee: " ++ ds ++ [' '] ++
        w.token.symbol), ?_⟩
      rw [← hB]
      simp
  · rw [if_neg h2] at hB
    cases hB
    by_cases h1 : w.amount ≠ 0
    · rw [if_pos h1] at hA
      rcases hds : w.token.decimal_str_amount w.amount with _ | ds <;>
        rw [hds] at hA
      · simp at hA
      · simp at hA
        refine Or.inr ⟨lchars "Withdraw " ++ ds ++ [' '] ++
          w.token.symbol ++ lchars " to: " ++ strLower w.to_address, ?_⟩
        rw [← hA]
        simp
    · rw [if_neg h1] at hA
      cases hA
      exact Or.inl rfl
· intro f m hm
  unfold ForcedExit.human_readable_message at hm
  rcases hds : f.token.decimal_str_amount f.fee with _ | ds <;>
    rw [hds] at hm
  · simp at hm
  · simp at hm
    obtain ⟨r, hr, hq⟩ := split_tail (lchars "ForcedExit " ++
      f.token.symbol ++ lchars " to: " ++ strLower f.target ++
      lchars "\nFee: " ++ ds ++ [' '] ++ f.token.symbol) f.nonce
    refine ⟨r, ?_, hq⟩
    rw [← hm, ← hr]
    simp
· intro x m hm
  unfold MintNFT.human_readable_message at hm
  rcases hds : x.fee_token.decimal_str_amount x.fee with _ | ds <;>
    rw [hds] at hm
  · simp at hm
  · simp at hm
    obtain ⟨r, hr, hq⟩ := split_tail (lchars "MintNFT " ++
      x.content_hash ++ lchars " for: " ++ strLower x.recipient ++
      lchars "\nFee: " ++ ds ++ [' '] ++ x.fee_token.symbol) x.nonce
    refine ⟨r, ?_, hq⟩
    rw [← hm, ← hr]
    simp
· intro w m hm
  unfold WithdrawNFT.human_readable_message at hm
  rcases hds : w.fee_token.decimal_str_amount w.fee with _ | ds <;>
    rw [hds] at hm
  · simp at hm
  · simp at hm
    obtain ⟨r, hr, hq⟩ := split_tail (lchars "WithdrawNFT " ++
      natDigits w.token_id ++ lchars " to: " ++ strLower w.to_address ++
      lchars "\nFee: " ++ ds ++ [' '] ++ w.fee_token.symbol) w.nonce
    refine ⟨r, ?_, hq⟩
    rw [← hm, ← hr]
    simp
· intro s m hm
  unfold Swap.human_readable_message at hm
  by_cases h2 : s.fee ≠ 0
  · rw [if_pos h2] at hm
    rcases hds : s.fee_token.decimal_str_amount s.fee with _ | ds <;>
      rw [hds] at hm
    · simp at hm
    · simp at hm
      refine ⟨(lchars "Swap fee: " ++ ds ++ [' '] ++ s.fee_token.symbol) ++
        ['\n'], ?_, Or.inr ⟨_, rfl⟩⟩
      rw [← hm]
      simp
  · rw [if_neg h2] at hm
    cases hm
    exact ⟨[], rfl, Or.inl rfl⟩
· intro o m hm
  unfold Order.human_readable_message at hm
  by_cases h1 : o.amount = 0
  · rw [if_pos h1] at hm
    cases hm
    obtain ⟨r, hr, hq⟩ := split_tail (lchars "Limit order for " ++
      o.token_sell.symbol ++ lchars " -> " ++ o.token_buy.symbol ++
      (lchars "\nRatio: " ++ natDigits o.ratioNum ++ [':'] ++
        natDigits o.ratioDen ++ lchars "\nAddress: " ++
        strLower o.recipient)) o.nonce
    refine ⟨r, ?_, hq⟩
    rw [← hr]
    simp
  · rw [if_neg h1] at hm
    rcases hds : o.token_sell.decimal_str_amount o.amount with _ | ds <;>
      rw [hds] at hm
    · simp at hm
    · simp at hm
      obtain ⟨r, hr, hq⟩ := split_tail (lchars "Order for " ++ ds ++
        [' '] ++ o.token_sell.symbol ++ lchars " -> " ++
        o.token_buy.symbol ++
        (lchars "\nRatio: " ++ natDigits o.ratioNum ++ [':'] ++
          natDigits o.ratioDen ++ lchars "\nAddress: " ++
          strLower o.recipient)) o.nonce
      refine ⟨r, ?_, hq⟩
      rw [← hm, ← hr]
      simp

/-- Witness for C4 (amended): the nonce-tail law evaluated on concrete
instances of the seven variants. -/
theorem C4_nonce_tail_witness :
    (∃ r, (tC2.human_readable_message).getD [] =
      r ++ (lchars "Nonce: " ++ natDigits tC2.nonce) ∧
      (r = [] ∨ ∃ q, r = q ++ ['\n'])) ∧
    (∃ r, (wdX.human_readable_message).getD [] =
      r ++ (lchars "Nonce: " ++ natDigits wdX.nonce) ∧
      (r = [] ∨ ∃ q, r = q ++ ['\n'])) ∧
    (∃ r, (feX.human_readable_message).getD [] =
      r ++ (lchars "Nonce: " ++ natDigits feX.nonce) ∧
      (r = [] ∨ ∃ q, r = q ++ ['\n'])) ∧
    (∃ r, (mnX.human_readable_message).getD [] =
      r ++ (lchars "Nonce: " ++ natDigits mnX.nonce) ∧
      (r = [] ∨ ∃ q, r = q ++ ['\n'])) ∧
    (∃ r, (wnX.human_readable_message).getD [] =
      r ++ (lchars "Nonce: " ++ natDigits wnX.nonce) ∧
      (r = [] ∨ ∃ q, r = q ++ ['\n'])) ∧
    (∃ r, (swX.human_readable_message).getD [] =
      r ++ (lchars "Nonce: " ++ natDigits swX.nonce) ∧
      (r = [] ∨ ∃ q, r = q ++ ['\n'])) ∧
    (∃ r, (ordX.human_readable_message).getD [] =
      r ++ (lchars "Nonce: " ++ natDigits ordX.nonce) ∧
      (r = [] ∨ ∃ q, r = q ++ ['\n'])) :=
⟨C4_nonce_tail.1 tC2 ((tC2.human_readable_message).getD []) (by decide),
 C4_nonce_tail.2.1 wdX ((wdX.human_readable_message).getD []) (by decide),
 C4_nonce_tail.2.2.1 feX ((feX.human_readable_message).getD [])
   (by decide),
 C4_nonce_tail.2.2.2.1 mnX ((mnX.human_readable_message).getD [])
   (by decide),
 C4_nonce_tail.2.2.2.2.1 wnX ((wnX.human_readable_message).getD [])
   (by decide),
 C4_nonce_tail.2.2.2.2.2.1 swX ((swX.human_readable_message).getD [])
   (by decide),
 C4_nonce_tail.2.2.2.2.2.2 ordX ((ordX.human_readable_message).getD [])
   (by decide)⟩

/-- Split a character string at newlines, modelling how a reader decomposes
the rendered message into its lines. -/
def splitLines : List Char → List (List Char)
  | [] => [[]]
  | c :: rest =>
    if c = '\n' then [] :: splitLines rest
    else
      match splitLines rest with
      | [] => [[c]]
      | h :: t => (c :: h) :: t

theorem splitLines_cons (c : Char) (rest : List Char) :
    splitLines (c :: rest) =
      if c = '\n' then [] :: splitLines rest
      else
        match splitLines rest with
        | [] => [[c]]
        | h :: t => (c :: h) :: t := rfl

theorem splitLines_no_newline {a : List Char}
    (h : ∀ c ∈ a, c ≠ '\n') : splitLines a = [a] := by
induction a with
| nil => rfl
| cons c a ih =>
  rw [splitLines_cons, if_neg (h c (by simp)),
    ih (fun x hx => h x (by simp [hx]))]

theorem splitLines_append_newline {a : List Char} (b : List Char)
    (h : ∀ c ∈ a, c ≠ '\n') :
    splitLines (a ++ '\n' :: b) = a :: splitLines b := by
induction a with
| nil =>
  rw [List.nil_append, splitLines_cons, if_pos rfl]
| cons c a ih =>
  rw [List.cons_append, splitLines_cons, if_neg (h c (by simp)),
    ih (fun x hx => h x (by simp [hx]))]

theorem noNL_append {x y : List Char}
    (hx : ∀ c ∈ x, c ≠ '\n') (hy : ∀ c ∈ y, c ≠ '\n') :
    ∀ c ∈ x ++ y, c ≠ '\n' := by
intro c hc
rcases List.mem_append.1 hc with h | h
· exact hx c h
· exact hy c h

theorem noNL_of_digit {c : Char} (h : c ∈ digitSet) : c ≠ '\n' := by
rw [mem_digitSet_iff] at h
rcases h with rfl|rfl|rfl|rfl|rfl|rfl|rfl|rfl|rfl|rfl <;> decide

theorem natDigits_noNL (n : Nat) : ∀ c ∈ natDigits n, c ≠ '\n' :=
fun c hc => noNL_of_digit (mem_natDigits_digitSet n c hc)

theorem decimal_str_chars {t : Token} {a : Nat} {s : List Char}
    (h : t.decimal_str_amount a = some s) :
    ∀ c ∈ s, c ∈ digitSet ∨ c = '.' := by
by_cases hcond : 1 ≤ t.decimals ∨ a ≠ 0
· obtain ⟨ip, fp, hs, _, _, hipd, hfpd, _⟩ := decimal_str_spec t a hcond
  rw [h] at hs
  injection hs with hs
  subst hs
  intro c hc
  rcases List.mem_append.1 hc with h1 | h1
  · exact Or.inl (hipd c h1)
  · rcases List.mem_cons.1 h1 with rfl | h2
    · exact Or.inr rfl
    · exact Or.inl (hfpd c h2)
· push_neg at hcond
  obtain ⟨hd0, ha0⟩ := hcond
  have hd0e : t.decimals = 0 := by omega
  subst ha0
  unfold Token.decimal_str_amount at h
  rw [if_pos hd0e, show strip_fmt (natDigits 0) = none by decide] at h
  cases h

theorem decimal_str_noNL {t : Token} {a : Nat} {s : List Char}
    (h : t.decimal_str_amount a = some s) : ∀ c ∈ s, c ≠ '\n' := by
intro c hc
rcases decimal_str_chars h c hc with h1 | rfl
· exact noNL_of_digit h1
· decide

theorem starts_clash {p q s u : List Char} {c d : Char}
    (hp : p = c :: s) (hq : q = d :: u) (hne : c ≠ d) :
    ∀ r, p ≠ q ++ r := by
intro r h
subst hp
subst hq
rw [List.cons_append] at h
injection h with h1 _
exact hne h1

theorem tag_clash {g1 g2 s1 s2 X r : List Char} {c1 c2 : Char}
    (h1 : g1 = c1 :: s1) (h2 : g2 = c2 :: s2) (hne : c1 ≠ c2)
    (h : g1 ++ X = g2 ++ r) : False := by
subst h1
subst h2
rw [List.cons_append, List.cons_append] at h
injection h with hc _
exact hne hc

theorem splitLines_msg3 (A F T D : List Char)
    (hA : ∀ c ∈ A, c ≠ '\n') (hF : ∀ c ∈ F, c ≠ '\n')
    (hN : ∀ c ∈ T ++ D, c ≠ '\n') :
    splitLines ((A ++ ['\n']) ++ (F ++ ['\n']) ++ T ++ D) =
      [A, F, T ++ D] := by
rw [show (A ++ ['\n']) ++ (F ++ ['\n']) ++ T ++ D =
  A ++ '\n' :: (F ++ '\n' :: (T ++ D)) by simp]
rw [splitLines_append_newline _ hA, splitLines_append_newline _ hF,
  splitLines_no_newline hN]

theorem splitLines_msg2 (A T D : List Char)
    (hA : ∀ c ∈ A, c ≠ '\n') (hN : ∀ c ∈ T ++ D, c ≠ '\n') :
    splitLines ((A ++ ['\n']) ++ T ++ D) = [A, T ++ D] := by
rw [show (A ++ ['\n']) ++ T ++ D = A ++ '\n' :: (T ++ D) by simp]
rw [splitLines_append_newline _ hA, splitLines_no_newline hN]

/-- C7: for Transfer and Withdraw (symbols and rendered addresses free of
newlines, as 20-byte hex addresses and token symbols are), the message
contains a line starting `Fee: ` exactly when the fee is nonzero, and a line
starting `Transfer ` (resp. `Withdraw `) exactly when the amount is
nonzero. -/
theorem C7_fee_amount_lines :
    (∀ (t : Transfer),
      (∀ c ∈ t.token.symbol, c ≠ '\n') →
      (∀ c ∈ strLower t.to_address, c ≠ '\n') →
      ∀ m, t.human_readable_message = some m →
      ((∃ l ∈ splitLines m, ∃ r, l = lchars "Fee: " ++ r) ↔ t.fee ≠ 0) ∧
      ((∃ l ∈ splitLines m, ∃ r, l = lchars "Transfer " ++ r) ↔
        t.amount ≠ 0)) ∧
    (∀ (w : Withdraw),
      (∀ c ∈ w.token.symbol, c ≠ '\n') →
      (∀ c ∈ strLower w.to_address, c ≠ '\n') →
      ∀ m, w.human_readable_message = some m →
      ((∃ l ∈ splitLines m, ∃ r, l = lchars "Fee: " ++ r) ↔ w.fee ≠ 0) ∧
      ((∃ l ∈ splitLines m, ∃ r, l = lchars "Withdraw " ++ r) ↔
        w.amount ≠ 0)) := by
constructor
· intro t hsym haddr m hm
  unfold Transfer.human_readable_message at hm
  obtain ⟨a, b, hA, hB, rfl⟩ := bind_bind_some hm
  have hsN : ∀ c ∈ lchars "Nonce: " ++ natDigits t.nonce, c ≠ '\n' :=
    noNL_append (by decide) (natDigits_noNL _)
  by_cases h1 : t.amount ≠ 0 <;> by_cases h2 : t.fee ≠ 0
  · rw [if_pos h1] at hA
    rw [if_pos h2] at hB
    rcases hdsA : t.token.decimal_str_amount t.amount with _ | dsA <;>
      rw [hdsA] at hA
    · simp at hA
    rcases hdsF : t.token.decimal_str_amount t.fee with _ | dsF <;>
      rw [hdsF] at hB
    · simp at hB
    simp only [Option.map_some'] at hA hB
    injection hA with hA
    injection hB with hB
    have hsA : ∀ c ∈ lchars "Transfer " ++ dsA ++ [' '] ++
        t.token.symbol ++ lchars " to: " ++ strLower t.to_address,
        c ≠ '\n' :=
      noNL_append (noNL_append (noNL_append (noNL_append
        (noNL_append (by decide) (decimal_str_noNL hdsA))
        (by decide)) hsym) (by decide)) haddr
    have hsF : ∀ c ∈ lchars "Fee: " ++ dsF ++ [' '] ++ t.token.symbol,
        c ≠ '\n' :=
      noNL_append (noNL_append (noNL_append (by decide)
        (decimal_str_noNL hdsF)) (by decide)) hsym
    rw [← hA, ← hB, splitLines_msg3 _ _ _ _ hsA hsF hsN]
    constructor
    · exact ⟨fun _ => h2, fun _ => ⟨lchars "Fee: " ++ dsF ++ [' '] ++
        t.token.symbol, by simp, dsF ++ [' '] ++ t.token.symbol,
        by simp⟩⟩
    · exact ⟨fun _ => h1, fun _ => ⟨lchars "Transfer " ++ dsA ++
        [' '] ++ t.token.symbol ++ lchars " to: " ++
        strLower t.to_address, by simp, dsA ++ [' '] ++
        t.token.symbol ++ lchars " to: " ++ strLower t.to_address,
        by simp⟩⟩
  · rw [if_pos h1] at hA
    rw [if_neg h2] at hB
    injection hB with hB
    rcases hdsA : t.token.decimal_str_amount t.amount with _ | dsA <;>
      rw [hdsA] at hA
    · simp at hA
    simp only [Option.map_some'] at hA
    injection hA with hA
    have hsA : ∀ c ∈ lchars "Transfer " ++ dsA ++ [' '] ++
        t.token.symbol ++ lchars " to: " ++ strLower t.to_address,
        c ≠ '\n' :=
      noNL_append (noNL_append (noNL_append (noNL_append
        (noNL_append (by decide) (decimal_str_noNL hdsA))
        (by decide)) hsym) (by decide)) haddr
    rw [← hA, ← hB, List.append_nil, splitLines_msg2 _ _ _ hsA hsN]
    constructor
    · constructor
      · rintro ⟨l, hl, r, hr⟩
        simp at hl
        rcases hl with rfl | rfl
        · exact (tag_clash (show lchars "Transfer "
            = 'T' :: lchars "ransfer " by decide)
            (show lchars "Fee: " = 'F' :: lchars "ee: " by decide)
            (by decide) hr).elim
        · exact (tag_clash (show lchars "Nonce: "
            = 'N' :: lchars "once: " by decide)
            (show lchars "Fee: " = 'F' :: lchars "ee: " by decide)
            (by decide) hr).elim
      · intro hf
        exact absurd hf h2
    · exact ⟨fun _ => h1, fun _ => ⟨lchars "Transfer " ++ dsA ++
        [' '] ++ t.token.symbol ++ lchars " to: " ++
        strLower t.to_address, by simp, dsA ++ [' '] ++
        t.token.symbol ++ lchars " to: " ++ strLower t.to_address,
        by simp⟩⟩
  · rw [if_neg h1] at hA
    rw [if_pos h2] at hB
    injection hA with hA
    rcases hdsF : t.token.decimal_str_amount t.fee with _ | dsF <;>
      rw [hdsF] at hB
    · simp at hB
    simp only [Option.map_some'] at hB
    injection hB with hB
    have hsF : ∀ c ∈ lchars "Fee: " ++ dsF ++ [' '] ++ t.token.symbol,
        c ≠ '\n' :=
      noNL_append (noNL_append (noNL_append (by decide)
        (decimal_str_noNL hdsF)) (by decide)) hsym
    rw [← hA, ← hB, List.nil_append, splitLines_msg2 _ _ _ hsF hsN]
    constructor
    · exact ⟨fun _ => h2, fun _ => ⟨lchars "Fee: " ++ dsF ++ [' '] ++
        t.token.symbol, by simp, dsF ++ [' '] ++ t.token.symbol,
        by simp⟩⟩
    · constructor
      · rintro ⟨l, hl, r, hr⟩
        simp at hl
        rcases hl with rfl | rfl
        · exact (tag_clash (show lchars "Fee: "
            = 'F' :: lchars "ee: " by decide)
            (show lchars "Transfer " = 'T' :: lchars "ransfer " by decide)
            (by decide) hr).elim
        · exact (tag_clash (show lchars "Nonce: "
            = 'N' :: lchars "once: " by decide)
            (show lchars "Transfer " = 'T' :: lchars "ransfer " by decide)
            (by decide) hr).elim
      · intro hf
        exact absurd hf h1
  · rw [if_neg h1] at hA
    rw [if_neg h2] at hB
    injection hA with hA
    injection hB with hB
    rw [← hA, ← hB, List.nil_append, List.nil_append,
      splitLines_no_newline hsN]
    constructor
    · constructor
      · rintro ⟨l, hl, r, hr⟩
        simp at hl
        subst hl
        exact (tag_clash (show lchars "Nonce: "
          = 'N' :: lchars "once: " by decide)
          (show lchars "Fee: " = 'F' :: lchars "ee: " by decide)
          (by decide) hr).elim
      · intro hf
        exact absurd hf h2
    · constructor
      · rintro ⟨l, hl, r, hr⟩
        simp at hl
        subst hl
        exact (tag_clash (show lchars "Nonce: "
          = 'N' :: lchars "once: " by decide)
          (show lchars "Transfer " = 'T' :: lchars "ransfer " by decide)
          (by decide) hr).elim
      · intro hf
        exact absurd hf h1
· intro w hsym haddr m hm
  unfold Withdraw.human_readable_message at hm
  obtain ⟨a, b, hA, hB, rfl⟩ := bind_bind_some hm
  have hsN : ∀ c ∈ lchars "Nonce: " ++ natDigits w.nonce, c ≠ '\n' :=
    noNL_append (by decide) (natDigits_noNL _)
  by_cases h1 : w.amount ≠ 0 <;> by_cases h2 : w.fee ≠ 0
  · rw [if_pos h1] at hA
    rw [if_pos h2] at hB
    rcases hdsA : w.token.decimal_str_amount w.amount with _ | dsA <;>
      rw [hdsA] at hA
    · simp at hA
    rcases hdsF : w.token.decimal_str_amount w.fee with _ | dsF <;>
      rw [hdsF] at hB
    · simp at hB
    simp only [Option.map_some'] at hA hB
    injection hA with hA
    injection hB with hB
    have hsA : ∀ c ∈ lchars "Withdraw " ++ dsA ++ [' '] ++
        w.token.symbol ++ lchars " to: " ++ strLower w.to_address,
        c ≠ '\n' :=
      noNL_append (noNL_append (noNL_append (noNL_append
        (noNL_append (by decide) (decimal_str_noNL hdsA))
        (by decide)) hsym) (by decide)) haddr
    have hsF : ∀ c ∈ lchars "Fee: " ++ dsF ++ [' '] ++ w.token.symbol,
        c ≠ '\n' :=
      noNL_append (noNL_append (noNL_append (by decide)
        (decimal_str_noNL hdsF)) (by decide)) hsym
    rw [← hA, ← hB, splitLines_msg3 _ _ _ _ hsA hsF hsN]
    constructor
    · exact ⟨fun _ => h2, fun _ => ⟨lchars "Fee: " ++ dsF ++ [' '] ++
        w.token.symbol, by simp, dsF ++ [' '] ++ w.token.symbol,
        by simp⟩⟩
    · exact ⟨fun _ => h1, fun _ => ⟨lchars "Withdraw " ++ dsA ++
        [' '] ++ w.token.symbol ++ lchars " to: " ++
        strLower w.to_address, by simp, dsA ++ [' '] ++
        w.token.symbol ++ lchars " to: " ++ strLower w.to_address,
        by simp⟩⟩
  · rw [if_pos h1] at hA
    rw [if_neg h2] at hB
    injection hB with hB
    rcases hdsA : w.token.decimal_str_amount w.amount with _ | dsA <;>
      rw [hdsA] at hA
    · simp at hA
    simp only [Option.map_some'] at hA
    injection hA with hA
    have hsA : ∀ c ∈ lchars "Withdraw " ++ dsA ++ [' '] ++
        w.token.symbol ++ lchars " to: " ++ strLower w.to_address,
        c ≠ '\n' :=
      noNL_append (noNL_append (noNL_append (noNL_append
        (noNL_append (by decide) (decimal_str_noNL hdsA))
        (by decide)) hsym) (by decide)) haddr
    rw [← hA, ← hB, List.append_nil, splitLines_msg2 _ _ _ hsA hsN]
    constructor
    · constructor
      · rintro ⟨l, hl, r, hr⟩
        simp at hl
        rcases hl with rfl | rfl
        · exact (tag_clash (show lchars "Withdraw "
            = 'W' :: lchars "ithdraw " by decide)
            (show lchars "Fee: " = 'F' :: lchars "ee: " by decide)
            (by decide) hr).elim
        · exact (tag_clash (show lchars "Nonce: "
            = 'N' :: lchars "once: " by decide)
            (show lchars "Fee: " = 'F' :: lchars "ee: " by decide)
            (by decide) hr).elim
      · intro hf
        exact absurd hf h2
    · exact ⟨fun _ => h1, fun _ => ⟨lchars "Withdraw " ++ dsA ++
        [' '] ++ w.token.symbol ++ lchars " to: " ++
        strLower w.to_address, by simp, dsA ++ [' '] ++
        w.token.symbol ++ lchars " to: " ++ strLower w.to_address,
        by simp⟩⟩
  · rw [if_neg h1] at hA
    rw [if_pos h2] at hB
    injection hA with hA
    rcases hdsF : w.token.decimal_str_amount w.fee with _ | dsF <;>
      rw [hdsF] at hB
    · simp at hB
    simp only [Option.map_some'] at hB
    injection hB with hB
    have hsF : ∀ c ∈ lchars "Fee: " ++ dsF ++ [' '] ++ w.token.symbol,
        c ≠ '\n' :=
      noNL_append (noNL_append (noNL_append (by decide)
        (decimal_str_noNL hdsF)) (by decide)) hsym
    rw [← hA, ← hB, List.nil_append, splitLines_msg2 _ _ _ hsF hsN]
    constructor
    · exact ⟨fun _ => h2, fun _ => ⟨lchars "Fee: " ++ dsF ++ [' '] ++
        w.token.symbol, by simp, dsF ++ [' '] ++ w.token.symbol,
        by simp⟩⟩
    · constructor
      · rintro ⟨l, hl, r, hr⟩
        simp at hl
        rcases hl with rfl | rfl
        · exact (tag_clash (show lchars "Fee: "
            = 'F' :: lchars "ee: " by decide)
            (show lchars "Withdraw " = 'W' :: lchars "ithdraw " by decide)
            (by decide) hr).elim
        · exact (tag_clash (show lchars "Nonce: "
            = 'N' :: lchars "once: " by decide)
            (show lchars "Withdraw " = 'W' :: lchars "ithdraw " by decide)
            (by decide) hr).elim
      · intro hf
        exact absurd hf h1
  · rw [if_neg h1] at hA
    rw [if_neg h2] at hB
    injection hA with hA
    injection hB with hB
    rw [← hA, ← hB, List.nil_append, List.nil_append,
      splitLines_no_newline hsN]
    constructor
    · constructor
      · rintro ⟨l, hl, r, hr⟩
        simp at hl
        subst hl
        exact (tag_clash (show lchars "Nonce: "
          = 'N' :: lchars "once: " by decide)
          (show lchars "Fee: " = 'F' :: lchars "ee: " by decide)
          (by decide) hr).elim
      · intro hf
        exact absurd hf h2
    · constructor
      · rintro ⟨l, hl, r, hr⟩
        simp at hl
        subst hl
        exact (tag_clash (show lchars "Nonce: "
          = 'N' :: lchars "once: " by decide)
          (show lchars "Withdraw " = 'W' :: lchars "ithdraw " by decide)
          (by decide) hr).elim
      · intro hf
        exact absurd hf h1

/-- Witness for C7: evaluated on the concrete Transfer `tC2` (nonzero
amount, zero fee) and Withdraw `wdX` (nonzero amount, zero fee). -/
theorem C7_fee_amount_lines_witness :
    (((∃ l ∈ splitLines ((tC2.human_readable_message).getD []),
        ∃ r, l = lchars "Fee: " ++ r) ↔ tC2.fee ≠ 0) ∧
     ((∃ l ∈ splitLines ((tC2.human_readable_message).getD []),
        ∃ r, l = lchars "Transfer " ++ r) ↔ tC2.amount ≠ 0)) ∧
    (((∃ l ∈ splitLines ((wdX.human_readable_message).getD []),
        ∃ r, l = lchars "Fee: " ++ r) ↔ wdX.fee ≠ 0) ∧
     ((∃ l ∈ splitLines ((wdX.human_readable_message).getD []),
        ∃ r, l = lchars "Withdraw " ++ r) ↔ wdX.amount ≠ 0)) :=
⟨C7_fee_amount_lines.1 tC2 (by decide) (by decide)
   ((tC2.human_readable_message).getD []) (by decide),
 C7_fee_amount_lines.2 wdX (by decide) (by decide)
   ((wdX.human_readable_message).getD []) (by decide)⟩

theorem natDigitsAux_length_bounds : ∀ (fuel n : Nat), n < fuel →
    1 ≤ (natDigitsAux fuel n).length ∧
    n < 10 ^ (natDigitsAux fuel n).length ∧
    (10 ≤ n → 10 ^ ((natDigitsAux fuel n).length - 1) ≤ n) ∧
    (n < 10 → (natDigitsAux fuel n).length = 1) := by
intro fuel
induction fuel with
| zero => intro n h; omega
| succ fuel ih =>
  intro n hn
  unfold natDigitsAux
  by_cases h10 : n < 10
  · rw [if_pos h10]
    refine ⟨by simp, by simpa using h10, by omega, fun _ => by simp⟩
  · rw [if_neg h10]
    have hrec : n / 10 < fuel := by omega
    obtain ⟨h1, h2, h3, h4⟩ := ih (n / 10) hrec
    rw [List.length_append, List.length_singleton]
    refine ⟨by omega, ?_, ?_, by omega⟩
    · calc n < (n / 10 + 1) * 10 := by omega
        _ ≤ 10 ^ (natDigitsAux fuel (n / 10)).length * 10 :=
          Nat.mul_le_mul_right 10 (by omega)
        _ = 10 ^ ((natDigitsAux fuel (n / 10)).length + 1) := by
          rw [pow_succ]
    · intro _
      have he : (natDigitsAux fuel (n / 10)).length + 1 - 1 =
          (natDigitsAux fuel (n / 10)).length := by omega
      rw [he]
      by_cases hten : 10 ≤ n / 10
      · calc 10 ^ (natDigitsAux fuel (n / 10)).length
            = 10 ^ ((natDigitsAux fuel (n / 10)).length - 1) * 10 := by
              rw [← pow_succ]
              congr 1
              omega
          _ ≤ (n / 10) * 10 := Nat.mul_le_mul_right 10 (h3 hten)
          _ ≤ n := by omega
      · rw [h4 (by omega)]
        omega

theorem lt_pow_decDigits (n : Nat) : n < 10 ^ decDigits n :=
(natDigitsAux_length_bounds (n + 1) n (by omega)).2.1

theorem decDigits_le_iff {n k : Nat} (hk : 1 ≤ k) :
    decDigits n ≤ k ↔ n < 10 ^ k := by
obtain ⟨h1, h2, h3, h4⟩ := natDigitsAux_length_bounds (n + 1) n (by omega)
constructor
· intro h
  calc n < 10 ^ decDigits n := h2
    _ ≤ 10 ^ k := Nat.pow_le_pow_right (by norm_num) h
· intro h
  by_contra hcon
  by_cases h10 : n < 10
  · exact hcon (le_trans (le_of_eq (h4 h10)) hk)
  · have hlow : 10 ^ (decDigits n - 1) ≤ n := h3 (by omega)
    have : (10 : Nat) ^ k ≤ 10 ^ (decDigits n - 1) :=
      Nat.pow_le_pow_right (by norm_num) (by omega)
    omega

theorem one_le_decDigits (n : Nat) : 1 ≤ decDigits n :=
(natDigitsAux_length_bounds (n + 1) n (by omega)).1

theorem decDigits_mul_pow_le (a k : Nat) :
    decDigits (a * 10 ^ k) ≤ decDigits a + k := by
have h1 : 1 ≤ decDigits a := one_le_decDigits a
rw [decDigits_le_iff (by omega)]
calc a * 10 ^ k < 10 ^ decDigits a * 10 ^ k :=
      mul_lt_mul_of_pos_right (lt_pow_decDigits a) (by positivity)
  _ = 10 ^ (decDigits a + k) := (pow_add 10 _ _).symm

theorem ctxRound_of_small {d : PyDecimal}
    (h : decDigits d.coeff.natAbs ≤ DECIMAL_CONTEXT_PREC) :
    ctxRound d = d := by
unfold ctxRound
rw [if_pos h]

/-- Context rounding is value-exact when the digits it drops are all
trailing zeros: if `10 ^ K` divides the coefficient and the coefficient has
at most `28 + K` digits, the rounded `Decimal` has the same value. -/
theorem ctxRound_val_exact (d : PyDecimal) {K : Nat}
    (hdvd : (10 : Nat) ^ K ∣ d.coeff.natAbs)
    (hdig : decDigits d.coeff.natAbs ≤ DECIMAL_CONTEXT_PREC + K) :
    (ctxRound d).val = d.val := by
unfold ctxRound
by_cases h : decDigits d.coeff.natAbs ≤ DECIMAL_CONTEXT_PREC
· rw [if_pos h]
· rw [if_neg h]
  unfold ctxRoundAux
  have hm1 : 1 ≤ decDigits d.coeff.natAbs - DECIMAL_CONTEXT_PREC := by
    omega
  have hmK : decDigits d.coeff.natAbs - DECIMAL_CONTEXT_PREC ≤ K := by
    omega
  have hdvdm : (10 : Nat) ^ (decDigits d.coeff.natAbs -
      DECIMAL_CONTEXT_PREC) ∣ d.coeff.natAbs :=
    dvd_trans (pow_dvd_pow 10 hmK) hdvd
  have hr : d.coeff.natAbs %
      10 ^ (decDigits d.coeff.natAbs - DECIMAL_CONTEXT_PREC) = 0 :=
    Nat.mod_eq_zero_of_dvd hdvdm
  have hq : roundHalfEvenNat d.coeff.natAbs
      (decDigits d.coeff.natAbs - DECIMAL_CONTEXT_PREC) =
      d.coeff.natAbs /
        10 ^ (decDigits d.coeff.natAbs - DECIMAL_CONTEXT_PREC) := by
    unfold roundHalfEvenNat
    rw [hr]
    have hh : 0 < 5 * 10 ^ (decDigits d.coeff.natAbs -
        DECIMAL_CONTEXT_PREC - 1) := by positivity
    rw [if_neg (by omega), if_pos (by omega)]
  rw [hq]
  have hq28 : decDigits (d.coeff.natAbs /
      10 ^ (decDigits d.coeff.natAbs - DECIMAL_CONTEXT_PREC)) ≤
      DECIMAL_CONTEXT_PREC := by
    rw [decDigits_le_iff (by norm_num [DECIMAL_CONTEXT_PREC])]
    rw [Nat.div_lt_iff_lt_mul (by positivity)]
    calc d.coeff.natAbs < 10 ^ decDigits d.coeff.natAbs :=
        lt_pow_decDigits _
      _ = 10 ^ DECIMAL_CONTEXT_PREC *
          10 ^ (decDigits d.coeff.natAbs - DECIMAL_CONTEXT_PREC) := by
          rw [← pow_add]
          congr 1
          omega
  rw [if_pos hq28]
  show (↑(Int.sign d.coeff * ↑(d.coeff.natAbs /
      10 ^ (decDigits d.coeff.natAbs - DECIMAL_CONTEXT_PREC))) : ℚ) *
      10 ^ (d.exp + ↑(decDigits d.coeff.natAbs - DECIMAL_CONTEXT_PREC)) =
      (d.coeff : ℚ) * 10 ^ d.exp
  rw [zpow_add₀ (by norm_num : (10 : ℚ) ≠ 0), zpow_natCast,
    Int.cast_mul, Int.cast_natCast]
  have hdivmul : ((d.coeff.natAbs /
      10 ^ (decDigits d.coeff.natAbs - DECIMAL_CONTEXT_PREC) : ℕ) : ℚ) *
      (10 : ℚ) ^ (decDigits d.coeff.natAbs - DECIMAL_CONTEXT_PREC) =
      (d.coeff.natAbs : ℚ) := by
    rw [show ((10 : ℚ) ^ (decDigits d.coeff.natAbs -
        DECIMAL_CONTEXT_PREC)) = ((10 ^ (decDigits d.coeff.natAbs -
        DECIMAL_CONTEXT_PREC) : ℕ) : ℚ) by push_cast; ring]
    rw [← Nat.cast_mul,
      Nat.div_mul_cancel (dvd_trans (pow_dvd_pow 10 hmK) hdvd)]
  have hsign : ((Int.sign d.coeff : ℤ) : ℚ) * (d.coeff.natAbs : ℚ) =
      (d.coeff : ℚ) := by
    rw [show ((d.coeff.natAbs : ℕ) : ℚ) = ((d.coeff.natAbs : ℤ) : ℚ) from
      (Int.cast_natCast _).symm]
    rw [← Int.cast_mul, Int.sign_mul_natAbs]
  calc (Int.sign d.coeff : ℚ) * (d.coeff.natAbs /
        10 ^ (decDigits d.coeff.natAbs - DECIMAL_CONTEXT_PREC) : ℕ) *
        (10 ^ d.exp * 10 ^ (decDigits d.coeff.natAbs -
          DECIMAL_CONTEXT_PREC)) =
      (Int.sign d.coeff : ℚ) * (((d.coeff.natAbs /
        10 ^ (decDigits d.coeff.natAbs - DECIMAL_CONTEXT_PREC) : ℕ) : ℚ) *
        (10 : ℚ) ^ (decDigits d.coeff.natAbs - DECIMAL_CONTEXT_PREC)) *
        10 ^ d.exp := by ring
    _ = (Int.sign d.coeff : ℚ) * (d.coeff.natAbs : ℚ) * 10 ^ d.exp := by
        rw [hdivmul]
    _ = (d.coeff : ℚ) * 10 ^ d.exp := by rw [hsign]

/-- The decimal `10000000000.000000000000000001`, whose coefficient
`10 ^ 28 + 1` has 29 significant digits — more than the default context's
28 — while having exactly 18 fractional digits. -/
def dBig : PyDecimal where
  coeff := 10 ^ 28 + 1
  exp := -18

/-- Counterexample to C8 as stated: for the ETH token (18 decimals) and the
decimal `10000000000.000000000000000001` — which has no more fractional
digits than the token's decimals — `scaleb` rounds the 29-digit scaled
coefficient `10^28 + 1` to the context's 28 significant digits, giving
`10^28`, so the round trip returns `10^10` and loses the final digit. -/
theorem C8_counterexample :
    -(Token.eth.decimals : ℤ) ≤ dBig.exp ∧
    (Token.eth.decimal_amount (Token.eth.from_decimal dBig)).val =
      ((10 : ℚ) ^ (10 : ℕ)) ∧
    (Token.eth.decimal_amount (Token.eth.from_decimal dBig)).val ≠
      dBig.val := by
have h1 : Token.eth.from_decimal dBig = 10 ^ 28 := by decide
have h2 : Token.eth.decimal_amount (10 ^ 28) =
    { coeff := 10 ^ 27, exp := -17 } := by decide
have hval : (Token.eth.decimal_amount (Token.eth.from_decimal dBig)).val =
    (10 : ℚ) ^ (10 : ℕ) := by
  rw [h1, h2]
  show ((10 ^ 27 : ℤ) : ℚ) * (10 : ℚ) ^ (-17 : ℤ) = (10 : ℚ) ^ (10 : ℕ)
  rw [show ((10 ^ 27 : ℤ) : ℚ) = (10 : ℚ) ^ ((27 : ℕ) : ℤ) by
    rw [zpow_natCast]
    push_cast
    ring]
  rw [← zpow_add₀ (by norm_num : (10 : ℚ) ≠ 0),
    show ((27 : ℕ) : ℤ) + (-17 : ℤ) = ((10 : ℕ) : ℤ) by norm_num]
  exact zpow_natCast 10 10
refine ⟨by decide, hval, ?_⟩
rw [hval]
have hexpand : dBig.val = (10 ^ 28 + 1 : ℚ) / (10 : ℚ) ^ (18 : ℕ) := by
  show ((10 ^ 28 + 1 : ℤ) : ℚ) * (10 : ℚ) ^ (-18 : ℤ) = _
  rw [show (-18 : ℤ) = -((18 : ℕ) : ℤ) by norm_num, zpow_neg,
    zpow_natCast, div_eq_mul_inv]
  push_cast
  ring
rw [hexpand]
intro heq
field_simp at heq
norm_num at heq

/-- C8 (amended): the round trip `decimal_amount (from_decimal d) == d`
holds for every token and every decimal input with no more fractional
digits than the token's decimals, provided the input's coefficient fits the
default context's 28 significant digits (so neither `scaleb` rounds away
value); beyond 28 significant digits the context rounding loses the low
digits. -/
theorem C8_decimal_round_trip :
    ∀ (t : Token) (d : PyDecimal),
      -(t.decimals : ℤ) ≤ d.exp →
      d.coeff.natAbs < 10 ^ DECIMAL_CONTEXT_PREC →
      (t.decimal_amount (t.from_decimal d)).val = d.val := by
intro t d hexp hc
have hdig : decDigits d.coeff.natAbs ≤ DECIMAL_CONTEXT_PREC :=
  (decDigits_le_iff (by norm_num [DECIMAL_CONTEXT_PREC])).2 hc
unfold Token.from_decimal PyDecimal.scaleb
rw [ctxRound_of_small
  (d := { coeff := d.coeff, exp := d.exp + (t.decimals : ℤ) }) hdig]
have hnn : 0 ≤ d.exp + (t.decimals : ℤ) := by omega
unfold pyIntOfDecimal
dsimp only
rw [if_pos hnn]
unfold Token.decimal_amount PyDecimal.scaleb
dsimp only
rw [zero_add]
have hA : (d.coeff * 10 ^ (d.exp + (t.decimals : ℤ)).toNat).natAbs =
    d.coeff.natAbs * 10 ^ (d.exp + (t.decimals : ℤ)).toNat := by
  rw [Int.natAbs_mul, Int.natAbs_pow]
  rfl
have hdvd : (10 : Nat) ^ (d.exp + (t.decimals : ℤ)).toNat ∣
    (d.coeff * 10 ^ (d.exp + (t.decimals : ℤ)).toNat).natAbs := by
  rw [hA]
  exact dvd_mul_left _ _
have hdigK : decDigits
    (d.coeff * 10 ^ (d.exp + (t.decimals : ℤ)).toNat).natAbs ≤
    DECIMAL_CONTEXT_PREC + (d.exp + (t.decimals : ℤ)).toNat := by
  rw [hA]
  calc decDigits (d.coeff.natAbs *
        10 ^ (d.exp + (t.decimals : ℤ)).toNat) ≤
      decDigits d.coeff.natAbs + (d.exp + (t.decimals : ℤ)).toNat :=
        decDigits_mul_pow_le _ _
    _ ≤ DECIMAL_CONTEXT_PREC + (d.exp + (t.decimals : ℤ)).toNat := by
        omega
rw [ctxRound_val_exact _ hdvd hdigK]
show ((d.coeff * 10 ^ (d.exp + (t.decimals : ℤ)).toNat : ℤ) : ℚ) *
    (10 : ℚ) ^ (-(t.decimals : ℤ)) = (d.coeff : ℚ) * 10 ^ d.exp
push_cast
rw [← zpow_natCast (10 : ℚ) (d.exp + (t.decimals : ℤ)).toNat,
  mul_assoc, ← zpow_add₀ (by norm_num : (10 : ℚ) ≠ 0)]
congr 1
congr 1
omega

/-- Witness for C8 (amended): the ETH token (18 decimals) and the decimal
`1.5` (coefficient 15, two significant digits) round-trip exactly. -/
theorem C8_decimal_round_trip_witness :
    (Token.eth.decimal_amount
      (Token.eth.from_decimal ⟨15, -1⟩)).val = (⟨15, -1⟩ : PyDecimal).val :=
C8_decimal_round_trip Token.eth ⟨15, -1⟩ (by decide) (by decide)

theorem filter_head?_eq_find? (p : Token → Bool) (l : List Token) :
    (l.filter p).head? = l.find? p := by
induction l with
| nil => rfl
| cons a l ih =>
  by_cases h : p a
  · simp [List.filter_cons, List.find?_cons, h]
  · simp [List.filter_cons, List.find?_cons, h, ih]

/-- C9: `Tokens.find` dispatches on the key's kind — an integer key is the
first token with that id, a string key is the first token with that address
or else the first with that symbol, and any other key gives the absent
value; no match yields the absent value rather than an error, and with
duplicates the first matching token in the registry list wins. -/
theorem C9_tokens_find :
    (∀ (ts : Tokens) (i : Nat),
      ts.find (.int i) = ts.tokens.find? (fun t => t.id == i)) ∧
    (∀ (ts : Tokens) (s : List Char),
      ts.find (.str s) =
        (ts.tokens.find? (fun t => t.address == s)).or
          (ts.tokens.find? (fun t => t.symbol == s))) ∧
    (∀ (ts : Tokens), ts.find .other = none) ∧
    (∀ (ts : Tokens) (i : Nat), (∀ t ∈ ts.tokens, t.id ≠ i) →
      ts.find (.int i) = none) ∧
    (∀ (ts : Tokens) (s : List Char),
      (∀ t ∈ ts.tokens, t.address ≠ s ∧ t.symbol ≠ s) →
      ts.find (.str s) = none) ∧
    (∀ (pre : List Token) (t : Token) (post : List Token) (i : Nat),
      t.id = i → (∀ u ∈ pre, u.id ≠ i) →
      Tokens.find ⟨pre ++ t :: post⟩ (.int i) = some t) := by
have hint : ∀ (ts : Tokens) (i : Nat),
    ts.find (.int i) = ts.tokens.find? (fun t => t.id == i) := by
  intro ts i
  unfold Tokens.find Tokens.find_by_id
  exact filter_head?_eq_find? _ _
have hstr : ∀ (ts : Tokens) (s : List Char),
    ts.find (.str s) =
      (ts.tokens.find? (fun t => t.address == s)).or
        (ts.tokens.find? (fun t => t.symbol == s)) := by
  intro ts s
  unfold Tokens.find Tokens.find_by_address Tokens.find_by_symbol
  dsimp only
  rw [filter_head?_eq_find?, filter_head?_eq_find?]
  cases ts.tokens.find? (fun t => t.address == s) <;> exact rfl
refine ⟨hint, hstr, fun ts => rfl, ?_, ?_, ?_⟩
· intro ts i h
  rw [hint]
  exact List.find?_eq_none.2 (fun t ht => by simpa using h t ht)
· intro ts s h
  rw [hstr]
  rw [List.find?_eq_none.2 (fun t ht => by simpa using (h t ht).1),
    List.find?_eq_none.2 (fun t ht => by simpa using (h t ht).2)]
  rfl
· intro pre t post i ht hpre
  rw [hint]
  show (pre ++ t :: post).find? (fun t => t.id == i) = some t
  rw [List.find?_append,
    List.find?_eq_none.2 (fun u hu => by simpa using hpre u hu)]
  rw [List.find?_cons_of_pos _ (by simpa using ht)]
  rfl

/-- A registry with duplicate-free sample tokens. -/
def regX : Tokens where
  tokens := [Token.eth, tok6, tokD0]

/-- Witness for C9: absent results and first-match dispatch evaluated on a
concrete registry. -/
theorem C9_tokens_find_witness :
    regX.find (.int 5) = none ∧
    regX.find (.str (lchars "FOO")) = none ∧
    Tokens.find ⟨[Token.eth] ++ tok6 :: [tokD0]⟩ (.int 2) = some tok6 :=
⟨C9_tokens_find.2.2.2.1 regX 5 (by decide),
 C9_tokens_find.2.2.2.2.1 regX (lchars "FOO") (by decide),
 C9_tokens_find.2.2.2.2.2 [Token.eth] tok6 [tokD0] 2 (by decide)
   (by decide)⟩

/-- C10: the transport dictionary of Transfer, Withdraw, ChangePubKey,
ForcedExit, MintNFT, and WithdrawNFT fails (attribute error on
`self.signature.dict()`) when the signature is absent, whereas `Order.dict`
and `Swap.dict` succeed and render the absent signature as the null
value. -/
theorem C10_dict_signature :
    (∀ (t : Transfer), t.signature = none → t.dict = none) ∧
    (∀ (w : Withdraw), w.signature = none → w.dict = none) ∧
    (∀ (c : ChangePubKey), c.signature = none → c.dict = none) ∧
    (∀ (f : ForcedExit), f.signature = none → f.dict = none) ∧
    (∀ (m : MintNFT), m.signature = none → m.dict = none) ∧
    (∀ (w : WithdrawNFT), w.signature = none → w.dict = none) ∧
    (∀ (o : Order), o.signature = none →
      (o.dict).lookup (lchars "signature") = some JVal.null) ∧
    (∀ (s : Swap), s.signature = none →
      (s.dict).lookup (lchars "signature") = some JVal.null) := by
refine ⟨?_, ?_, ?_, ?_, ?_, ?_, ?_, ?_⟩
· intro t h
  unfold Transfer.dict
  rw [h]
· intro w h
  unfold Withdraw.dict
  rw [h]
· intro c h
  unfold ChangePubKey.dict
  rw [h]
· intro f h
  unfold ForcedExit.dict
  rw [h]
· intro m h
  unfold MintNFT.dict
  rw [h]
· intro w h
  unfold WithdrawNFT.dict
  rw [h]
· intro o h
  unfold Order.dict JVal.lookup
  rw [h]
  exact rfl
· intro s h
  unfold Swap.dict JVal.lookup
  rw [h]
  exact rfl

/-- Witness for C10: the sample instances all carry no signature; the six
strict variants' dictionaries fail, Order's and Swap's succeed with a null
signature entry. -/
theorem C10_dict_signature_witness :
    tC2.dict = none ∧ wdX.dict = none ∧ cpkX.dict = none ∧
    feX.dict = none ∧ mnX.dict = none ∧ wnX.dict = none ∧
    (ordX.dict).lookup (lchars "signature") = some JVal.null ∧
    (swX.dict).lookup (lchars "signature") = some JVal.null :=
⟨C10_dict_signature.1 tC2 rfl,
 C10_dict_signature.2.1 wdX rfl,
 C10_dict_signature.2.2.1 cpkX rfl,
 C10_dict_signature.2.2.2.1 feX rfl,
 C10_dict_signature.2.2.2.2.1 mnX rfl,
 C10_dict_signature.2.2.2.2.2.1 wnX rfl,
 C10_dict_signature.2.2.2.2.2.2.1 ordX rfl,
 C10_dict_signature.2.2.2.2.2.2.2 swX rfl⟩

end ZkSync
